import Mathlib

/-!
Verification of the TCP segment codec (dumbo/pdu/tcp.rs).

Buffers are modelled as lists of natural numbers (the bytes), a segment view is
the list of its logical bytes, and the staged builder returns the produced byte
list. Machine arithmetic is modelled on Nat with explicit reductions modulo
powers of two at the points where the source truncates.
-/

namespace Dumbo

/-- Byte of a buffer at an index, zero outside the range. -/
def byte (s : List Nat) (i : Nat) : Nat := s.getD i 0

/-- Modelled from the spec: big-endian 16-bit read of the byte-order view
(ntohs_unchecked of the bytes module, which is outside the provided sources). -/
def ntohs (s : List Nat) (o : Nat) : Nat := byte s o * 256 + byte s (o + 1)

/-- Modelled from the spec: big-endian 32-bit read of the byte-order view. -/
def ntohl (s : List Nat) (o : Nat) : Nat :=
  byte s o * 16777216 + byte s (o + 1) * 65536 + byte s (o + 2) * 256 + byte s (o + 3)

/-- Modelled from the spec: big-endian 16-bit write of the byte-order view. -/
def htons (s : List Nat) (o v : Nat) : List Nat :=
  (s.set o (v % 65536 / 256)).set (o + 1) (v % 256)

/-- Modelled from the spec: big-endian 32-bit write of the byte-order view. -/
def htonl (s : List Nat) (o v : Nat) : List Nat :=
  (((s.set o (v % 4294967296 / 16777216)).set (o + 1) (v % 16777216 / 65536)).set
    (o + 2) (v % 65536 / 256)).set (o + 3) (v % 256)

/-- Errors which may occur while handling TCP segments. -/
inductive TcpError where
  | Checksum
  | EmptyPayload
  | HeaderLen
  | MssOption
  | MssRemaining
  | SliceTooShort
deriving DecidableEq, Repr

/-- An IPv4 address, as its four octets. -/
structure Ipv4Addr where
  a : Nat
  b : Nat
  c : Nat
  d : Nat
deriving DecidableEq, Repr

/-- Modelled from the spec: the sum of the big-endian 16-bit words of a byte
sequence, an odd trailing byte being padded with a zero low byte. -/
def sum16 : List Nat → Nat
  | [] => 0
  | [a] => a * 256
  | a :: b :: rest => a * 256 + b + sum16 rest

/-- Modelled from the spec: fold the carries of a one's-complement sum until the
value fits in 16 bits. -/
def foldCarry (n : Nat) : Nat :=
  if n < 65536 then n else foldCarry (n % 65536 + n / 65536)
decreasing_by omega

/-- Modelled from the spec: the 96-bit pseudo header used by the TCP checksum,
source address, destination address, a zero byte, protocol number 6, and the
segment length as a 16-bit value. -/
def pseudoBytes (src dst : Ipv4Addr) (l : Nat) : List Nat :=
  [src.a, src.b, src.c, src.d, dst.a, dst.b, dst.c, dst.d, 0, 6, l % 65536 / 256, l % 256]

/-- Modelled from the spec: compute_checksum of the pdu module (outside the
provided sources): sum the pseudo header and the whole segment as 16-bit
big-endian words, fold the carries, and take the one's complement. -/
def compute_checksum (s : List Nat) (src dst : Ipv4Addr) : Nat :=
  65535 - foldCarry (sum16 (pseudoBytes src dst s.length ++ s))

/-- Returns the source port (offset 0). -/
def source_port (s : List Nat) : Nat := ntohs s 0

/-- Returns the destination port (offset 2). -/
def destination_port (s : List Nat) : Nat := ntohs s 2

/-- Returns the sequence number (offset 4). -/
def sequence_number (s : List Nat) : Nat := ntohl s 4

/-- Returns the acknowledgement number (offset 8). -/
def ack_number (s : List Nat) : Nat := ntohl s 8

/-- Returns the header length, the reserved bits, and the NS flag (offset 12). -/
def header_len_rsvd_ns (s : List Nat) : Nat × Nat × Bool :=
  let value := byte s 12
  (value / 16 * 4, value &&& 14, value &&& 1 != 0)

/-- Returns the length of the header. -/
def header_len (s : List Nat) : Nat := (header_len_rsvd_ns s).1

/-- Returns the TCP header flags byte, with the exception of NS (offset 13). -/
def flags_after_ns (s : List Nat) : Nat := byte s 13

/-- Returns the window size field (offset 14). -/
def window_size (s : List Nat) : Nat := ntohs s 14

/-- Returns the checksum field (offset 16). -/
def checksum (s : List Nat) : Nat := ntohs s 16

/-- Returns the urgent pointer field (offset 18). -/
def urgent_pointer (s : List Nat) : Nat := ntohs s 18

/-- Returns the length of the segment, capped at the 16-bit maximum. -/
def len (s : List Nat) : Nat := min s.length 65535

/-- Returns the payload of the segment. -/
def payload (s : List Nat) : List Nat := s.drop (header_len s)

/-- Returns the length of the payload. -/
def payload_len (s : List Nat) : Nat := len s - header_len s

/-- Returns the options region, the bytes between offset 20 and the header end. -/
def options_unchecked (s : List Nat) (hl : Nat) : List Nat := (s.take hl).drop 20

/-- Fuel-indexed evaluation of the option scan loop of parse_mss_option_unchecked;
none means the loop has not finished within the given number of iterations. -/
def parseMssFuel (b : List Nat) : Nat → Nat → Option (Except TcpError (Option Nat))
  | 0, _ => none
  | fuel + 1, i =>
    if i + 3 < b.length then
      match byte b i with
      | 0 => some (.ok none)
      | 1 => parseMssFuel b fuel (i + 1)
      | 2 =>
        if ntohs b (i + 2) < 100 then some (.error .MssOption)
        else some (.ok (some (ntohs b (i + 2))))
      | _ + 3 => parseMssFuel b fuel (i + byte b (i + 1))
    else some (.ok none)

/-- Parses the TCP header options, looking for the MSS option. Runs the scan loop
with enough fuel for every terminating run (an advancing scan runs at most one
iteration per option byte); none reports a run that never terminates. -/
def parse_mss_option_unchecked (s : List Nat) (hl : Nat) :
    Option (Except TcpError (Option Nat)) :=
  parseMssFuel (options_unchecked s hl) ((options_unchecked s hl).length + 1) 0

/-- Attempts to interpret the bytes as a TCP segment, checking the validity of the
header fields and, when addresses are supplied, the checksum. -/
def from_bytes (s : List Nat) (verify_checksum : Option (Ipv4Addr × Ipv4Addr)) :
    Except TcpError (List Nat) :=
  if s.length < 20 then .error .SliceTooShort
  else if header_len s < 20 ∨ min 60 (len s) < header_len s then .error .HeaderLen
  else
    match verify_checksum with
    | some (src, dst) =>
      if compute_checksum s src dst ≠ 0 then .error .Checksum else .ok s
    | none => .ok s

/-- Sets the source port. -/
def set_source_port (s : List Nat) (v : Nat) : List Nat := htons s 0 v

/-- Sets the destination port. -/
def set_destination_port (s : List Nat) (v : Nat) : List Nat := htons s 2 v

/-- Sets the sequence number. -/
def set_sequence_number (s : List Nat) (v : Nat) : List Nat := htonl s 4 v

/-- Sets the acknowledgement number. -/
def set_ack_number (s : List Nat) (v : Nat) : List Nat := htonl s 8 v

/-- Sets the data-offset byte from the header length, clearing the reserved bits
and setting the NS flag as given. -/
def set_header_len_rsvd_ns (s : List Nat) (hl : Nat) (ns : Bool) : List Nat :=
  s.set 12 (if ns then hl * 4 % 256 ||| 1 else hl * 4 % 256)

/-- Sets the flags byte containing every TCP flag except NS. -/
def set_flags_after_ns (s : List Nat) (f : Nat) : List Nat := s.set 13 (f % 256)

/-- Sets the window size field. -/
def set_window_size (s : List Nat) (v : Nat) : List Nat := htons s 14 v

/-- Sets the checksum field. -/
def set_checksum (s : List Nat) (v : Nat) : List Nat := htons s 16 v

/-- Sets the urgent pointer field. -/
def set_urgent_pointer (s : List Nat) (v : Nat) : List Nat := htons s 18 v

/-- Modelled from the spec: read_to_slice of the ByteBuffer abstraction (outside
the provided sources) copies the leading bytes of the payload buffer into a
region of the destination buffer. -/
def overwrite (s : List Nat) (o : Nat) (p : List Nat) : List Nat :=
  s.take o ++ p ++ s.drop (o + p.length)

/-- The field writes of write_incomplete_segment on the fixed header: sequence
number, ack number, data-offset byte with NS cleared, flags, window size, and a
zero urgent pointer. -/
def write_header (buf : List Nat) (seq ack hl flags window : Nat) : List Nat :=
  set_urgent_pointer
    (set_window_size
      (set_flags_after_ns
        (set_header_len_rsvd_ns (set_ack_number (set_sequence_number buf seq) ack) hl false)
        flags)
      window)
    0

/-- Writes an incomplete TCP segment, missing the source port, destination port
and checksum fields, into the buffer; returns the produced byte list, shrunk to
the exact produced length. -/
def write_incomplete_segment (buf : List Nat) (seq ack flags window : Nat)
    (mss_option : Option Nat) (mss_remaining : Nat)
    (payload_arg : Option (List Nat × Nat)) : Except TcpError (List Nat) :=
  if mss_option.isSome ∧ mss_remaining < 4 then .error .MssRemaining
  else
    let options_len := if mss_option.isSome then 4 else 0
    let mss_left := if mss_option.isSome then mss_remaining - 4 else mss_remaining
    let segment_len := 20 + options_len
    if buf.length < segment_len then .error .SliceTooShort
    else
      let s0 := write_header buf seq ack (20 + options_len) flags window
      let s1 := match mss_option with
        | some v => htons ((s0.set 20 2).set 21 4) 22 v
        | none => s0
      match payload_arg with
      | some (pbuf, maxb) =>
        let left_to_read := min pbuf.length maxb
        let room := min (min (len s1 - segment_len) mss_left) left_to_read
        if room = 0 then .error .EmptyPayload
        else .ok ((overwrite s1 segment_len (pbuf.take room)).take (segment_len + room))
      | none => .ok (s1.take segment_len)

/-- Transforms an incomplete segment into a finished one by writing the source
port and destination port and, when addresses are supplied, zeroing the checksum
field, computing the checksum and writing it back. -/
def finalize (s : List Nat) (src_port dst_port : Nat)
    (cks : Option (Ipv4Addr × Ipv4Addr)) : List Nat :=
  let s1 := set_destination_port (set_source_port s src_port) dst_port
  match cks with
  | none => s1
  | some (src, dst) =>
    let s2 := set_checksum s1 0
    set_checksum s2 (compute_checksum s2 src dst)

/-- Writes a complete TCP segment: the incomplete write followed by finalize. -/
def write_segment (buf : List Nat) (src_port dst_port seq ack flags window : Nat)
    (mss_option : Option Nat) (mss_remaining : Nat)
    (payload_arg : Option (List Nat × Nat))
    (cks : Option (Ipv4Addr × Ipv4Addr)) : Except TcpError (List Nat) :=
  match write_incomplete_segment buf seq ack flags window mss_option mss_remaining
      payload_arg with
  | .error e => .error e
  | .ok s => .ok (finalize s src_port dst_port cks)

end Dumbo

namespace Dumbo

theorem byte_set_self {s : List Nat} {i : Nat} (v : Nat) (h : i < s.length) :
    byte (s.set i v) i = v := by
  simp [byte, List.getD_eq_getElem?_getD, List.getElem?_set_self h]

theorem byte_set_ne {s : List Nat} {i j : Nat} (v : Nat) (h : i ≠ j) :
    byte (s.set i v) j = byte s j := by
  simp [byte, List.getD_eq_getElem?_getD, List.getElem?_set_ne h]

theorem length_htons (s : List Nat) (o v : Nat) : (htons s o v).length = s.length := by
  simp [htons]

theorem length_htonl (s : List Nat) (o v : Nat) : (htonl s o v).length = s.length := by
  simp [htonl]

theorem byte_htons_ne {s : List Nat} {o j : Nat} (v : Nat) (h0 : o ≠ j) (h1 : o + 1 ≠ j) :
    byte (htons s o v) j = byte s j := by
  unfold htons
  rw [byte_set_ne _ h1, byte_set_ne _ h0]

theorem byte_htonl_ne {s : List Nat} {o j : Nat} (v : Nat) (h0 : o ≠ j) (h1 : o + 1 ≠ j)
    (h2 : o + 2 ≠ j) (h3 : o + 3 ≠ j) :
    byte (htonl s o v) j = byte s j := by
  unfold htonl
  rw [byte_set_ne _ h3, byte_set_ne _ h2, byte_set_ne _ h1, byte_set_ne _ h0]

theorem byte_htons_hi {s : List Nat} {o : Nat} (v : Nat) (h : o < s.length) :
    byte (htons s o v) o = v % 65536 / 256 := by
  unfold htons
  rw [byte_set_ne _ (by omega), byte_set_self _ h]

theorem byte_htons_lo {s : List Nat} {o : Nat} (v : Nat) (h : o + 1 < s.length) :
    byte (htons s o v) (o + 1) = v % 256 := by
  unfold htons
  exact byte_set_self _ (by simpa using h)

theorem ntohs_htons {s : List Nat} {o : Nat} (v : Nat) (h : o + 1 < s.length) :
    ntohs (htons s o v) o = v % 65536 := by
  unfold ntohs
  rw [byte_htons_hi _ (by omega), byte_htons_lo _ h]
  omega

theorem byte_htonl_0 {s : List Nat} {o : Nat} (v : Nat) (h : o < s.length) :
    byte (htonl s o v) o = v % 4294967296 / 16777216 := by
  unfold htonl
  rw [byte_set_ne _ (by omega), byte_set_ne _ (by omega), byte_set_ne _ (by omega),
    byte_set_self _ h]

theorem byte_htonl_1 {s : List Nat} {o : Nat} (v : Nat) (h : o + 1 < s.length) :
    byte (htonl s o v) (o + 1) = v % 16777216 / 65536 := by
  unfold htonl
  rw [byte_set_ne _ (by omega), byte_set_ne _ (by omega),
    byte_set_self _ (by simpa using h)]

theorem byte_htonl_2 {s : List Nat} {o : Nat} (v : Nat) (h : o + 2 < s.length) :
    byte (htonl s o v) (o + 2) = v % 65536 / 256 := by
  unfold htonl
  rw [byte_set_ne _ (by omega), byte_set_self _ (by simpa using h)]

theorem byte_htonl_3 {s : List Nat} {o : Nat} (v : Nat) (h : o + 3 < s.length) :
    byte (htonl s o v) (o + 3) = v % 256 := by
  unfold htonl
  exact byte_set_self _ (by simpa using h)

theorem ntohl_htonl {s : List Nat} {o : Nat} (v : Nat) (h : o + 3 < s.length) :
    ntohl (htonl s o v) o = v % 4294967296 := by
  unfold ntohl
  rw [byte_htonl_0 _ (by omega), byte_htonl_1 _ (by omega), byte_htonl_2 _ (by omega),
    byte_htonl_3 _ h]
  omega

theorem byte_take {s : List Nat} {n j : Nat} (h : j < n) :
    byte (s.take n) j = byte s j := by
  simp [byte, List.getD_eq_getElem?_getD, List.getElem?_take, h]

theorem drop_set_of_lt {s : List Nat} {i n : Nat} (v : Nat) (h : i < n) :
    (s.set i v).drop n = s.drop n := by
  simp [List.drop_set, h]

theorem drop_htons_of_lt {s : List Nat} {o n : Nat} (v : Nat) (h : o + 1 < n) :
    (htons s o v).drop n = s.drop n := by
  unfold htons
  rw [drop_set_of_lt _ (by omega), drop_set_of_lt _ (by omega)]

end Dumbo

namespace Dumbo

theorem foldCarry_le (n : Nat) : foldCarry n ≤ 65535 := by
  induction n using foldCarry.induct with
  | case1 x h => rw [foldCarry]; simp only [if_pos h]; omega
  | case2 x h ih => rw [foldCarry]; simp only [if_neg h]; exact ih

theorem foldCarry_mod (n : Nat) : foldCarry n % 65535 = n % 65535 := by
  induction n using foldCarry.induct with
  | case1 x h => rw [foldCarry]; simp only [if_pos h]
  | case2 x h ih => rw [foldCarry]; simp only [if_neg h]; omega

theorem foldCarry_zero : foldCarry 0 = 0 := by
  rw [foldCarry]; norm_num

theorem foldCarry_ne_zero {n : Nat} (h : n ≠ 0) : foldCarry n ≠ 0 := by
  induction n using foldCarry.induct with
  | case1 x hx => rw [foldCarry]; simp only [if_pos hx]; exact h
  | case2 x hx ih => rw [foldCarry]; simp only [if_neg hx]; exact ih (by omega)

theorem fold_sum_complement (S : Nat) : foldCarry (S + (65535 - foldCarry S)) = 65535 := by
  have h1 := foldCarry_le S
  have h2 := foldCarry_mod S
  have h3 := foldCarry_le (S + (65535 - foldCarry S))
  have h4 := foldCarry_mod (S + (65535 - foldCarry S))
  have h5 : S + (65535 - foldCarry S) ≠ 0 := by
    rcases Nat.eq_zero_or_pos S with hS | hS
    · subst hS; rw [foldCarry_zero]; omega
    · omega
  have h6 := foldCarry_ne_zero h5
  omega

theorem sum16_append_even : ∀ (p s : List Nat), p.length % 2 = 0 →
    sum16 (p ++ s) = sum16 p + sum16 s := by
  intro p s
  induction p using sum16.induct with
  | case1 => intro _; simp [sum16]
  | case2 a => intro h; simp at h
  | case3 a b rest ih =>
    intro h
    simp only [List.cons_append, sum16, List.append_eq]
    rw [ih (by simp at h ⊢; omega)]
    ring

theorem byte_cons_succ (a : Nat) (s : List Nat) (i : Nat) :
    byte (a :: s) (i + 1) = byte s i := by
  simp [byte]

theorem byte_cons_zero (a : Nat) (s : List Nat) : byte (a :: s) 0 = a := by
  simp [byte]

theorem sum16_set : ∀ (s : List Nat) (i v : Nat), i < s.length →
    sum16 (s.set i v) + byte s i * (if i % 2 = 0 then 256 else 1)
      = sum16 s + v * (if i % 2 = 0 then 256 else 1) := by
  intro s
  induction s using sum16.induct with
  | case1 => intro i v h; simp at h
  | case2 a =>
    intro i v h
    have hi : i = 0 := by simp at h; omega
    subst hi
    simp [sum16, byte]
    omega
  | case3 a b rest ih =>
    intro i v h
    match i with
    | 0 => simp [sum16, byte]; omega
    | 1 => simp [sum16, byte]; omega
    | i + 2 =>
      have hlen : i < rest.length := by simp at h; omega
      have hih := ih i v hlen
      have hp : (i + 2) % 2 = i % 2 := by omega
      simp only [List.set_cons_succ, sum16, byte_cons_succ, hp]
      by_cases hc : i % 2 = 0
      · rw [if_pos hc] at hih ⊢; omega
      · rw [if_neg hc] at hih ⊢; omega

theorem sum16_htons {s : List Nat} {o : Nat} (v : Nat) (he : o % 2 = 0)
    (h : o + 1 < s.length) :
    sum16 (htons s o v) + (byte s o * 256 + byte s (o + 1)) = sum16 s + v % 65536 := by
  have h1 := sum16_set s o (v % 65536 / 256) (by omega)
  have h2 := sum16_set (s.set o (v % 65536 / 256)) (o + 1) (v % 256) (by simp; omega)
  rw [byte_set_ne _ (by omega)] at h2
  have ho : (o + 1) % 2 = 1 := by omega
  rw [if_pos he] at h1
  rw [ho] at h2
  simp only [if_neg (by omega : (1:Nat) ≠ 0)] at h2
  unfold htons
  omega

end Dumbo

namespace Dumbo

theorem length_finalize (s : List Nat) (sp dp : Nat) (cks : Option (Ipv4Addr × Ipv4Addr)) :
    (finalize s sp dp cks).length = s.length := by
  rcases cks with _ | ⟨src, dst⟩ <;>
    simp [finalize, set_source_port, set_destination_port, set_checksum, length_htons]

theorem length_pseudoBytes (src dst : Ipv4Addr) (l : Nat) :
    (pseudoBytes src dst l).length = 12 := by
  simp [pseudoBytes]

theorem compute_checksum_set_checksum (s : List Nat) (src dst : Ipv4Addr) (c : Nat)
    (hc : c ≤ 65535) (h : 17 < s.length) (h16 : byte s 16 = 0) (h17 : byte s 17 = 0) :
    compute_checksum (set_checksum s c) src dst
      = 65535 - foldCarry (sum16 (pseudoBytes src dst s.length ++ s) + c) := by
  unfold compute_checksum set_checksum
  rw [length_htons]
  have hps := sum16_append_even (pseudoBytes src dst s.length) (htons s 16 c)
    (by rw [length_pseudoBytes])
  have hs := sum16_append_even (pseudoBytes src dst s.length) s
    (by rw [length_pseudoBytes])
  have hset := sum16_htons (s := s) (o := 16) c (by omega) h
  rw [h16, h17] at hset
  have hcm : c % 65536 = c := by omega
  rw [hcm] at hset
  rw [hps, hs]
  have : sum16 (htons s 16 c) = sum16 s + c := by omega
  rw [this]
  ring_nf

theorem finalize_verifies (s : List Nat) (sp dp : Nat) (src dst : Ipv4Addr)
    (h : 17 < s.length) :
    compute_checksum (finalize s sp dp (some (src, dst))) src dst = 0 := by
  show compute_checksum
    (set_checksum (set_checksum (set_destination_port (set_source_port s sp) dp) 0)
      (compute_checksum (set_checksum (set_destination_port (set_source_port s sp) dp) 0)
        src dst)) src dst = 0
  set s1 := set_destination_port (set_source_port s sp) dp with hs1
  have hlen1 : s1.length = s.length := by
    simp [hs1, set_source_port, set_destination_port, length_htons]
  set s2 := set_checksum s1 0 with hs2
  have hlen2 : s2.length = s.length := by simp [hs2, set_checksum, length_htons, hlen1]
  have h16 : byte s2 16 = 0 := by
    rw [hs2]; unfold set_checksum
    rw [byte_htons_hi _ (by omega)]
  have h17 : byte s2 17 = 0 := by
    rw [hs2]; unfold set_checksum
    rw [byte_htons_lo _ (by omega)]
  have hcks : compute_checksum s2 src dst
      = 65535 - foldCarry (sum16 (pseudoBytes src dst s.length ++ s2)) := by
    unfold compute_checksum
    rw [hlen2]
  rw [compute_checksum_set_checksum s2 src dst _ (by rw [hcks]; omega) (by omega) h16 h17]
  rw [hlen2, hcks]
  rw [fold_sum_complement]

end Dumbo

namespace Dumbo

theorem drop_htonl_of_lt {s : List Nat} {o n : Nat} (v : Nat) (h : o + 3 < n) :
    (htonl s o v).drop n = s.drop n := by
  unfold htonl
  rw [drop_set_of_lt _ (by omega), drop_set_of_lt _ (by omega), drop_set_of_lt _ (by omega),
    drop_set_of_lt _ (by omega)]

theorem length_write_header (buf : List Nat) (seq ack hl flags window : Nat) :
    (write_header buf seq ack hl flags window).length = buf.length := by
  simp [write_header, set_urgent_pointer, set_window_size, set_flags_after_ns,
    set_header_len_rsvd_ns, set_ack_number, set_sequence_number, length_htons, length_htonl]

theorem byte_write_header_ne (buf : List Nat) (seq ack hl flags window : Nat) {j : Nat}
    (h : j < 4 ∨ j = 16 ∨ j = 17 ∨ 20 ≤ j) :
    byte (write_header buf seq ack hl flags window) j = byte buf j := by
  unfold write_header set_urgent_pointer set_window_size set_flags_after_ns
    set_header_len_rsvd_ns set_ack_number set_sequence_number
  rw [byte_htons_ne _ (by omega) (by omega), byte_htons_ne _ (by omega) (by omega),
    byte_set_ne _ (by omega), byte_set_ne _ (by omega),
    byte_htonl_ne _ (by omega) (by omega) (by omega) (by omega),
    byte_htonl_ne _ (by omega) (by omega) (by omega) (by omega)]

theorem sequence_number_write_header (buf : List Nat) (seq ack hl flags window : Nat)
    (hb : 20 ≤ buf.length) :
    sequence_number (write_header buf seq ack hl flags window) = seq % 4294967296 := by
  unfold write_header set_urgent_pointer set_window_size set_flags_after_ns
    set_header_len_rsvd_ns set_ack_number set_sequence_number
  unfold sequence_number ntohl
  simp +decide only [byte_htons_ne, byte_set_ne, byte_htonl_ne]
  rw [byte_htonl_0 _ (by omega), byte_htonl_1 _ (by omega), byte_htonl_2 _ (by omega),
    byte_htonl_3 _ (by omega)]
  omega

theorem ack_number_write_header (buf : List Nat) (seq ack hl flags window : Nat)
    (hb : 20 ≤ buf.length) :
    ack_number (write_header buf seq ack hl flags window) = ack % 4294967296 := by
  unfold write_header set_urgent_pointer set_window_size set_flags_after_ns
    set_header_len_rsvd_ns set_ack_number set_sequence_number
  unfold ack_number ntohl
  simp +decide only [byte_htons_ne, byte_set_ne]
  rw [byte_htonl_0 _ (by rw [length_htonl]; omega),
    byte_htonl_1 _ (by rw [length_htonl]; omega),
    byte_htonl_2 _ (by rw [length_htonl]; omega),
    byte_htonl_3 _ (by rw [length_htonl]; omega)]
  omega

theorem byte12_write_header (buf : List Nat) (seq ack hl flags window : Nat)
    (hb : 20 ≤ buf.length) :
    byte (write_header buf seq ack hl flags window) 12 = hl * 4 % 256 := by
  unfold write_header set_urgent_pointer set_window_size set_flags_after_ns
    set_header_len_rsvd_ns set_ack_number set_sequence_number
  simp +decide only [byte_htons_ne, byte_set_ne]
  rw [byte_set_self _ (by simp [length_htonl]; omega)]
  simp

theorem flags_after_ns_write_header (buf : List Nat) (seq ack hl flags window : Nat)
    (hb : 20 ≤ buf.length) :
    flags_after_ns (write_header buf seq ack hl flags window) = flags % 256 := by
  unfold write_header set_urgent_pointer set_window_size set_flags_after_ns
    set_header_len_rsvd_ns set_ack_number set_sequence_number
  unfold flags_after_ns
  simp +decide only [byte_htons_ne]
  rw [byte_set_self _ (by simp [length_htonl]; omega)]

theorem window_size_write_header (buf : List Nat) (seq ack hl flags window : Nat)
    (hb : 20 ≤ buf.length) :
    window_size (write_header buf seq ack hl flags window) = window % 65536 := by
  unfold write_header set_urgent_pointer set_window_size set_flags_after_ns
    set_header_len_rsvd_ns set_ack_number set_sequence_number
  unfold window_size ntohs
  simp +decide only [byte_htons_ne]
  rw [byte_htons_hi _ (by simp [length_htons, length_htonl]; omega),
    byte_htons_lo _ (by simp [length_htons, length_htonl]; omega)]
  omega

theorem urgent_pointer_write_header (buf : List Nat) (seq ack hl flags window : Nat)
    (hb : 20 ≤ buf.length) :
    urgent_pointer (write_header buf seq ack hl flags window) = 0 := by
  unfold write_header set_urgent_pointer
  unfold urgent_pointer
  rw [ntohs_htons]
  simp [set_window_size, set_flags_after_ns, set_header_len_rsvd_ns, set_ack_number,
    set_sequence_number, length_htons, length_htonl]
  omega

theorem drop_write_header (buf : List Nat) (seq ack hl flags window : Nat) {n : Nat}
    (hn : 20 ≤ n) :
    (write_header buf seq ack hl flags window).drop n = buf.drop n := by
  unfold write_header set_urgent_pointer set_window_size set_flags_after_ns
    set_header_len_rsvd_ns set_ack_number set_sequence_number
  rw [drop_htons_of_lt _ (by omega), drop_htons_of_lt _ (by omega),
    drop_set_of_lt _ (by omega), drop_set_of_lt _ (by omega),
    drop_htonl_of_lt _ (by omega), drop_htonl_of_lt _ (by omega)]

end Dumbo

namespace Dumbo

theorem htons_htons_same (s : List Nat) (o v w : Nat) :
    htons (htons s o v) o w = htons s o w := by
  unfold htons
  apply List.ext_getElem?
  intro i
  simp only [List.getElem?_set, List.length_set]
  by_cases h1 : o + 1 = i
  · have h2 : ¬(o = i) := by omega
    simp [h1, h2]
  · by_cases h2 : o = i <;> simp [h1, h2]

theorem set_checksum_finalize (s : List Nat) (sp dp : Nat) (src dst : Ipv4Addr) :
    set_checksum (finalize s sp dp (some (src, dst))) 0
      = set_checksum (set_destination_port (set_source_port s sp) dp) 0 := by
  show set_checksum (set_checksum (set_checksum _ 0)
    (compute_checksum (set_checksum _ 0) src dst)) 0 = _
  unfold set_checksum
  rw [htons_htons_same, htons_htons_same]

theorem compute_checksum_le (s : List Nat) (src dst : Ipv4Addr) :
    compute_checksum s src dst ≤ 65535 := by
  unfold compute_checksum
  omega

theorem checksum_finalize (s : List Nat) (sp dp : Nat) (src dst : Ipv4Addr)
    (h : 17 < s.length) :
    checksum (finalize s sp dp (some (src, dst)))
      = compute_checksum (set_checksum (set_destination_port (set_source_port s sp) dp) 0)
          src dst := by
  show checksum (set_checksum (set_checksum _ 0)
    (compute_checksum (set_checksum _ 0) src dst)) = _
  unfold checksum set_checksum
  rw [ntohs_htons _ (by simp [length_htons, set_destination_port, set_source_port]; omega)]
  have hle := compute_checksum_le
    (htons (set_destination_port (set_source_port s sp) dp) 16 0) src dst
  omega

theorem byte_finalize_ne (s : List Nat) (sp dp : Nat) (cks : Option (Ipv4Addr × Ipv4Addr))
    {j : Nat} (h0 : 4 ≤ j) (h1 : j ≠ 16) (h2 : j ≠ 17) :
    byte (finalize s sp dp cks) j = byte s j := by
  rcases cks with _ | ⟨src, dst⟩
  · show byte (set_destination_port (set_source_port s sp) dp) j = byte s j
    unfold set_destination_port set_source_port
    rw [byte_htons_ne _ (by omega) (by omega), byte_htons_ne _ (by omega) (by omega)]
  · show byte (set_checksum (set_checksum (set_destination_port (set_source_port s sp) dp) 0)
      (compute_checksum (set_checksum (set_destination_port (set_source_port s sp) dp) 0)
        src dst)) j = byte s j
    unfold set_checksum set_destination_port set_source_port
    rw [byte_htons_ne _ (by omega) (by omega), byte_htons_ne _ (by omega) (by omega),
      byte_htons_ne _ (by omega) (by omega), byte_htons_ne _ (by omega) (by omega)]

theorem source_port_finalize (s : List Nat) (sp dp : Nat)
    (cks : Option (Ipv4Addr × Ipv4Addr)) (h : 17 < s.length) :
    source_port (finalize s sp dp cks) = sp % 65536 := by
  rcases cks with _ | ⟨src, dst⟩
  · show source_port (set_destination_port (set_source_port s sp) dp) = sp % 65536
    unfold set_destination_port set_source_port source_port ntohs
    have hb0 : byte (htons (htons s 0 sp) 2 dp) 0 = sp % 65536 / 256 := by
      rw [byte_htons_ne _ (by omega) (by omega), byte_htons_hi _ (by omega)]
    have hb1 : byte (htons (htons s 0 sp) 2 dp) (0 + 1) = sp % 256 := by
      rw [byte_htons_ne _ (by omega) (by omega),
        byte_htons_lo _ (by simp [length_htons]; omega)]
    rw [hb0, hb1]
    omega
  · show source_port (set_checksum (set_checksum (set_destination_port
      (set_source_port s sp) dp) 0)
      (compute_checksum (set_checksum (set_destination_port (set_source_port s sp) dp) 0)
        src dst)) = sp % 65536
    unfold set_checksum set_destination_port set_source_port source_port ntohs
    have hb0 : byte (htons (htons (htons (htons s 0 sp) 2 dp) 16 0) 16
        (compute_checksum (htons (htons (htons s 0 sp) 2 dp) 16 0) src dst)) 0
        = sp % 65536 / 256 := by
      rw [byte_htons_ne _ (by omega) (by omega), byte_htons_ne _ (by omega) (by omega),
        byte_htons_ne _ (by omega) (by omega), byte_htons_hi _ (by omega)]
    have hb1 : byte (htons (htons (htons (htons s 0 sp) 2 dp) 16 0) 16
        (compute_checksum (htons (htons (htons s 0 sp) 2 dp) 16 0) src dst)) (0 + 1)
        = sp % 256 := by
      rw [byte_htons_ne _ (by omega) (by omega), byte_htons_ne _ (by omega) (by omega),
        byte_htons_ne _ (by omega) (by omega),
        byte_htons_lo _ (by simp [length_htons]; omega)]
    rw [hb0, hb1]
    omega

theorem destination_port_finalize (s : List Nat) (sp dp : Nat)
    (cks : Option (Ipv4Addr × Ipv4Addr)) (h : 17 < s.length) :
    destination_port (finalize s sp dp cks) = dp % 65536 := by
  rcases cks with _ | ⟨src, dst⟩
  · show destination_port (set_destination_port (set_source_port s sp) dp) = dp % 65536
    unfold set_destination_port set_source_port destination_port
    rw [ntohs_htons _ (by simp [length_htons]; omega)]
  · show destination_port (set_checksum (set_checksum (set_destination_port
      (set_source_port s sp) dp) 0)
      (compute_checksum (set_checksum (set_destination_port (set_source_port s sp) dp) 0)
        src dst)) = dp % 65536
    unfold set_checksum set_destination_port set_source_port destination_port ntohs
    have hb0 : byte (htons (htons (htons (htons s 0 sp) 2 dp) 16 0) 16
        (compute_checksum (htons (htons (htons s 0 sp) 2 dp) 16 0) src dst)) 2
        = dp % 65536 / 256 := by
      rw [byte_htons_ne _ (by omega) (by omega), byte_htons_ne _ (by omega) (by omega),
        byte_htons_hi _ (by simp [length_htons]; omega)]
    have hb1 : byte (htons (htons (htons (htons s 0 sp) 2 dp) 16 0) 16
        (compute_checksum (htons (htons (htons s 0 sp) 2 dp) 16 0) src dst)) (2 + 1)
        = dp % 256 := by
      rw [byte_htons_ne _ (by omega) (by omega), byte_htons_ne _ (by omega) (by omega),
        byte_htons_lo _ (by simp [length_htons]; omega)]
    rw [hb0, hb1]
    omega

theorem drop_finalize (s : List Nat) (sp dp : Nat) (cks : Option (Ipv4Addr × Ipv4Addr))
    {n : Nat} (hn : 18 ≤ n) :
    (finalize s sp dp cks).drop n = s.drop n := by
  rcases cks with _ | ⟨src, dst⟩
  · show (set_destination_port (set_source_port s sp) dp).drop n = s.drop n
    unfold set_destination_port set_source_port
    rw [drop_htons_of_lt _ (by omega), drop_htons_of_lt _ (by omega)]
  · show ((set_checksum (set_checksum (set_destination_port (set_source_port s sp) dp) 0)
      (compute_checksum (set_checksum (set_destination_port (set_source_port s sp) dp) 0)
        src dst))).drop n = s.drop n
    unfold set_checksum set_destination_port set_source_port
    rw [drop_htons_of_lt _ (by omega), drop_htons_of_lt _ (by omega),
      drop_htons_of_lt _ (by omega), drop_htons_of_lt _ (by omega)]

theorem length_overwrite {s p : List Nat} {o : Nat} (h : o + p.length ≤ s.length) :
    (overwrite s o p).length = s.length := by
  unfold overwrite
  simp only [List.length_append, List.length_take, List.length_drop]
  omega

theorem byte_overwrite_of_lt {s p : List Nat} {o j : Nat} (h : j < o) (ho : o ≤ s.length) :
    byte (overwrite s o p) j = byte s j := by
  unfold overwrite byte
  simp only [List.getD_eq_getElem?_getD]
  rw [List.getElem?_append,
    if_pos (by simp only [List.length_append, List.length_take]; omega),
    List.getElem?_append, if_pos (by simp only [List.length_take]; omega)]
  simp only [List.getElem?_take, if_pos h]

theorem drop_take_overwrite {s p : List Nat} {o : Nat} (h : o + p.length ≤ s.length) :
    ((overwrite s o p).take (o + p.length)).drop o = p := by
  unfold overwrite
  have h1 : (s.take o).length = o := by simp only [List.length_take]; omega
  have h2 : (s.take o ++ p).length = o + p.length := by
    simp only [List.length_append, List.length_take]; omega
  rw [List.take_left' h2, List.drop_left' h1]

end Dumbo

namespace Dumbo

theorem wis_mss_remaining (buf : List Nat) (seq ack flags window v mr : Nat)
    (pa : Option (List Nat × Nat)) (hmr : mr < 4) :
    write_incomplete_segment buf seq ack flags window (some v) mr pa
      = .error .MssRemaining := by
  unfold write_incomplete_segment
  rw [if_pos ⟨rfl, hmr⟩]

theorem wis_slice_short_none (buf : List Nat) (seq ack flags window mr : Nat)
    (pa : Option (List Nat × Nat)) (hb : buf.length < 20) :
    write_incomplete_segment buf seq ack flags window none mr pa
      = .error .SliceTooShort := by
  simp only [write_incomplete_segment, Option.isSome_none, Bool.false_eq_true, false_and,
    if_false, Nat.add_zero]
  rw [if_pos hb]

theorem wis_slice_short_some (buf : List Nat) (seq ack flags window v mr : Nat)
    (pa : Option (List Nat × Nat)) (h4 : ¬ mr < 4) (hb : buf.length < 24) :
    write_incomplete_segment buf seq ack flags window (some v) mr pa
      = .error .SliceTooShort := by
  simp only [write_incomplete_segment, Option.isSome_some, reduceIte, true_and, if_neg h4]
  rw [if_pos (by omega)]

theorem wis_ok_none_none (buf : List Nat) (seq ack flags window mr : Nat)
    (hb : ¬ buf.length < 20) :
    write_incomplete_segment buf seq ack flags window none mr none
      = .ok ((write_header buf seq ack 20 flags window).take 20) := by
  simp only [write_incomplete_segment, Option.isSome_none, Bool.false_eq_true, false_and,
    if_false, Nat.add_zero]
  rw [if_neg hb]

theorem wis_ok_some_none (buf : List Nat) (seq ack flags window v mr : Nat)
    (h4 : ¬ mr < 4) (hb : ¬ buf.length < 24) :
    write_incomplete_segment buf seq ack flags window (some v) mr none
      = .ok ((htons (((write_header buf seq ack 24 flags window).set 20 2).set 21 4) 22
          v).take 24) := by
  simp only [write_incomplete_segment, Option.isSome_some, reduceIte, true_and, if_neg h4]
  rw [if_neg (by omega)]

theorem wis_none_payload (buf pbuf : List Nat) (seq ack flags window mr maxb : Nat)
    (hb : ¬ buf.length < 20) :
    write_incomplete_segment buf seq ack flags window none mr (some (pbuf, maxb))
      = (if min (min (len (write_header buf seq ack 20 flags window) - 20) mr)
            (min pbuf.length maxb) = 0 then .error .EmptyPayload
         else .ok ((overwrite (write_header buf seq ack 20 flags window) 20
            (pbuf.take (min (min (len (write_header buf seq ack 20 flags window) - 20) mr)
              (min pbuf.length maxb)))).take
            (20 + min (min (len (write_header buf seq ack 20 flags window) - 20) mr)
              (min pbuf.length maxb)))) := by
  simp only [write_incomplete_segment, Option.isSome_none, Bool.false_eq_true, false_and,
    if_false, Nat.add_zero]
  rw [if_neg hb]

theorem wis_some_payload (buf pbuf : List Nat) (seq ack flags window v mr maxb : Nat)
    (h4 : ¬ mr < 4) (hb : ¬ buf.length < 24) :
    write_incomplete_segment buf seq ack flags window (some v) mr (some (pbuf, maxb))
      = (if min (min (len (htons (((write_header buf seq ack 24 flags window).set 20 2).set
          21 4) 22 v) - 24) (mr - 4)) (min pbuf.length maxb) = 0 then .error .EmptyPayload
         else .ok ((overwrite (htons (((write_header buf seq ack 24 flags window).set 20
            2).set 21 4) 22 v) 24
            (pbuf.take (min (min (len (htons (((write_header buf seq ack 24 flags
              window).set 20 2).set 21 4) 22 v) - 24) (mr - 4)) (min pbuf.length maxb)))).take
            (24 + min (min (len (htons (((write_header buf seq ack 24 flags window).set 20
              2).set 21 4) 22 v) - 24) (mr - 4)) (min pbuf.length maxb)))) := by
  simp only [write_incomplete_segment, Option.isSome_some, reduceIte, true_and, if_neg h4]
  rw [if_neg (by omega)]

theorem length_opt_some (buf : List Nat) (seq ack flags window v : Nat) :
    (htons (((write_header buf seq ack 24 flags window).set 20 2).set 21 4) 22 v).length
      = buf.length := by
  simp [length_htons, length_write_header]

end Dumbo

namespace Dumbo

theorem fb_slice_iff (s : List Nat) (v : Option (Ipv4Addr × Ipv4Addr)) :
    from_bytes s v = .error .SliceTooShort ↔ s.length < 20 := by
  unfold from_bytes
  by_cases h1 : s.length < 20
  · simp [if_pos h1, h1]
  · rw [if_neg h1]
    constructor
    · intro h
      exfalso
      split at h
      · simp at h
      · rcases v with _ | ⟨a, b⟩
        · simp at h
        · dsimp only at h
          split at h <;> simp at h
    · intro h; exact absurd h h1

theorem fb_header_iff (s : List Nat) (v : Option (Ipv4Addr × Ipv4Addr)) :
    from_bytes s v = .error .HeaderLen
      ↔ 20 ≤ s.length ∧ (header_len s < 20 ∨ min 60 (len s) < header_len s) := by
  unfold from_bytes
  by_cases h1 : s.length < 20
  · rw [if_pos h1]
    simp
    omega
  · rw [if_neg h1]
    by_cases h2 : header_len s < 20 ∨ min 60 (len s) < header_len s
    · simp [if_pos h2, h2]
      omega
    · rw [if_neg h2]
      constructor
      · intro h
        exfalso
        rcases v with _ | ⟨a, b⟩
        · simp at h
        · dsimp only at h
          split at h <;> simp at h
      · intro h
        exact absurd h.2 h2

theorem fb_checksum_iff (s : List Nat) (src dst : Ipv4Addr) :
    from_bytes s (some (src, dst)) = .error .Checksum
      ↔ 20 ≤ s.length ∧ ¬(header_len s < 20 ∨ min 60 (len s) < header_len s)
          ∧ compute_checksum s src dst ≠ 0 := by
  unfold from_bytes
  dsimp only
  by_cases h1 : s.length < 20
  · rw [if_pos h1]
    simp
    omega
  · rw [if_neg h1]
    by_cases h2 : header_len s < 20 ∨ min 60 (len s) < header_len s
    · rw [if_pos h2]
      simp [h2]
      intros
      omega
    · rw [if_neg h2]
      by_cases h3 : compute_checksum s src dst ≠ 0
      · simp [if_pos h3, h1, h2, h3]
        omega
      · simp [if_neg h3, h3]

theorem fb_none_ne_checksum (s : List Nat) :
    from_bytes s none ≠ .error .Checksum := by
  unfold from_bytes
  intro h
  split at h
  · simp at h
  · split at h
    · simp at h
    · simp at h

theorem fb_ok_iff (s : List Nat) (v : Option (Ipv4Addr × Ipv4Addr)) :
    from_bytes s v = .ok s
      ↔ 20 ≤ s.length ∧ ¬(header_len s < 20 ∨ min 60 (len s) < header_len s)
          ∧ ∀ src dst, v = some (src, dst) → compute_checksum s src dst = 0 := by
  unfold from_bytes
  by_cases h1 : s.length < 20
  · rw [if_pos h1]
    simp
    intros
    exfalso
    omega
  · rw [if_neg h1]
    by_cases h2 : header_len s < 20 ∨ min 60 (len s) < header_len s
    · rw [if_pos h2]
      simp [h2]
      intros
      exfalso
      omega
    · rw [if_neg h2]
      rcases v with _ | ⟨a, b⟩
      · simp [h1, h2]
        omega
      · dsimp only
        by_cases h3 : compute_checksum s a b ≠ 0
        · rw [if_pos h3]
          simp [h3]
        · rw [if_neg h3]
          simp only [not_not] at h3
          simp [h1, h2, h3]
          omega


theorem fb_ok_eq {s t : List Nat} {v : Option (Ipv4Addr × Ipv4Addr)}
    (h : from_bytes s v = .ok t) : t = s := by
  unfold from_bytes at h
  split at h
  · simp at h
  · split at h
    · simp at h
    · rcases v with _ | ⟨a, b⟩
      · simp at h
        exact h.symm
      · dsimp only at h
        split at h
        · simp at h
        · simp at h
          exact h.symm

/-- C3: from_bytes returns SliceTooShort exactly when the buffer is shorter than
20 bytes; otherwise HeaderLen exactly when the derived header length is below 20
or exceeds min(60, segment length); when an address pair is supplied it returns
Checksum exactly when the checksum over the whole segment is nonzero, and with no
addresses it never returns Checksum; in all remaining cases it returns the
validated view. -/
theorem c3_from_bytes_cases (s : List Nat) (v : Option (Ipv4Addr × Ipv4Addr)) :
    (from_bytes s v = .error .SliceTooShort ↔ s.length < 20) ∧
    (from_bytes s v = .error .HeaderLen
      ↔ 20 ≤ s.length ∧ (header_len s < 20 ∨ min 60 (len s) < header_len s)) ∧
    (∀ src dst, from_bytes s (some (src, dst)) = .error .Checksum
      ↔ 20 ≤ s.length ∧ ¬(header_len s < 20 ∨ min 60 (len s) < header_len s)
          ∧ compute_checksum s src dst ≠ 0) ∧
    from_bytes s none ≠ .error .Checksum ∧
    (from_bytes s v = .ok s
      ↔ 20 ≤ s.length ∧ ¬(header_len s < 20 ∨ min 60 (len s) < header_len s)
          ∧ ∀ src dst, v = some (src, dst) → compute_checksum s src dst = 0) :=
  ⟨fb_slice_iff s v, fb_header_iff s v, fun src dst => fb_checksum_iff s src dst,
    fb_none_ne_checksum s, fb_ok_iff s v⟩

/-- C10: every segment accepted by from_bytes is the input itself and satisfies
20 ≤ header_len ≤ min(60, len); the header length fits inside the byte slice, so
the payload slice stays in bounds and payload_len never underflows. -/
theorem c10_validated_invariant (s t : List Nat) (v : Option (Ipv4Addr × Ipv4Addr))
    (h : from_bytes s v = .ok t) :
    t = s ∧ 20 ≤ header_len t ∧ header_len t ≤ min 60 (len t)
      ∧ header_len t ≤ t.length ∧ (payload t).length + header_len t = t.length
      ∧ payload_len t + header_len t = len t := by
  have hts := fb_ok_eq h
  subst hts
  have hok := (fb_ok_iff t v).mp h
  rcases hok with ⟨hl1, hl2, _⟩
  rw [not_or, not_lt, not_lt] at hl2
  have hp : (payload t).length = t.length - header_len t := List.length_drop _ _
  have hlen : len t = min t.length 65535 := rfl
  have hpl : payload_len t = len t - header_len t := rfl
  refine ⟨rfl, hl2.1, hl2.2, ?_, ?_, ?_⟩ <;> omega

/-- C10 witness: a concrete 20-byte segment with data offset 5 is accepted and
satisfies the invariant. -/
theorem c10_validated_invariant_witness :
    from_bytes [0, 0, 0, 0, 0, 0, 0, 0, 0, 0, 0, 0, 80, 0, 0, 0, 0, 0, 0, 0] none
        = .ok [0, 0, 0, 0, 0, 0, 0, 0, 0, 0, 0, 0, 80, 0, 0, 0, 0, 0, 0, 0] ∧
      ([0, 0, 0, 0, 0, 0, 0, 0, 0, 0, 0, 0, 80, 0, 0, 0, 0, 0, 0, 0]
          = [0, 0, 0, 0, 0, 0, 0, 0, 0, 0, 0, 0, 80, 0, 0, 0, 0, 0, 0, 0]
        ∧ 20 ≤ header_len [0, 0, 0, 0, 0, 0, 0, 0, 0, 0, 0, 0, 80, 0, 0, 0, 0, 0, 0, 0]
        ∧ header_len [0, 0, 0, 0, 0, 0, 0, 0, 0, 0, 0, 0, 80, 0, 0, 0, 0, 0, 0, 0]
            ≤ min 60 (len [0, 0, 0, 0, 0, 0, 0, 0, 0, 0, 0, 0, 80, 0, 0, 0, 0, 0, 0, 0])
        ∧ header_len [0, 0, 0, 0, 0, 0, 0, 0, 0, 0, 0, 0, 80, 0, 0, 0, 0, 0, 0, 0]
            ≤ List.length [0, 0, 0, 0, 0, 0, 0, 0, 0, 0, 0, 0, 80, 0, 0, 0, 0, 0, 0, 0]
        ∧ (payload [0, 0, 0, 0, 0, 0, 0, 0, 0, 0, 0, 0, 80, 0, 0, 0, 0, 0, 0, 0]).length
            + header_len [0, 0, 0, 0, 0, 0, 0, 0, 0, 0, 0, 0, 80, 0, 0, 0, 0, 0, 0, 0]
            = List.length [0, 0, 0, 0, 0, 0, 0, 0, 0, 0, 0, 0, 80, 0, 0, 0, 0, 0, 0, 0]
        ∧ payload_len [0, 0, 0, 0, 0, 0, 0, 0, 0, 0, 0, 0, 80, 0, 0, 0, 0, 0, 0, 0]
            + header_len [0, 0, 0, 0, 0, 0, 0, 0, 0, 0, 0, 0, 80, 0, 0, 0, 0, 0, 0, 0]
            = len [0, 0, 0, 0, 0, 0, 0, 0, 0, 0, 0, 0, 80, 0, 0, 0, 0, 0, 0, 0]) :=
  ⟨rfl, c10_validated_invariant _ _ none rfl⟩


end Dumbo

namespace Dumbo

/-- C5 (amended): with an MSS option requested, writing into a 1-byte buffer
fails with SliceTooShort when the declared budget is at least 4; the budget
check precedes the capacity check, so the write fails with MssRemaining exactly
when mss_remaining is below 4 (in particular for mss_remaining = 0, even with a
sufficiently large buffer). -/
theorem c5_write_error_precedence (buf : List Nat) (seq ack flags window v mr : Nat)
    (pa : Option (List Nat × Nat)) :
    (buf.length = 1 → 4 ≤ mr →
      write_incomplete_segment buf seq ack flags window (some v) mr pa
        = .error .SliceTooShort) ∧
    (write_incomplete_segment buf seq ack flags window (some v) mr pa
        = .error .MssRemaining ↔ mr < 4) := by
  constructor
  · intro h1 h4
    exact wis_slice_short_some buf seq ack flags window v mr pa (by omega) (by omega)
  · constructor
    · intro h
      by_contra h4
      by_cases hb : buf.length < 24
      · rw [wis_slice_short_some buf seq ack flags window v mr pa h4 hb] at h
        simp at h
      · rcases pa with _ | ⟨pbuf, maxb⟩
        · rw [wis_ok_some_none buf seq ack flags window v mr h4 hb] at h
          simp at h
        · rw [wis_some_payload buf pbuf seq ack flags window v mr maxb h4 hb] at h
          split at h <;> simp at h
    · intro h4
      exact wis_mss_remaining buf seq ack flags window v mr pa h4

/-- C5 witness: at the concrete inputs of the spec scenario, the 1-byte buffer
with budget 1460 gives SliceTooShort, and budget 0 with a large buffer gives
MssRemaining. -/
theorem c5_write_error_precedence_witness :
    write_incomplete_segment [7] 0 0 0 0 (some 536) 1460 (some ([1], 1))
        = .error .SliceTooShort ∧
      write_incomplete_segment (List.replicate 100 0) 0 0 0 0 (some 536) 0 (some ([1], 1))
        = .error .MssRemaining :=
  ⟨(c5_write_error_precedence [7] 0 0 0 0 536 1460 (some ([1], 1))).1 (by simp) (by omega),
    (c5_write_error_precedence (List.replicate 100 0) 0 0 0 0 536 0
      (some ([1], 1))).2.mpr (by omega)⟩

/-- C5 counterexample: a 1-byte buffer with an MSS option and the nonzero budget
1 fails with MssRemaining, not SliceTooShort as the claim states. -/
theorem c5_claim_counterexample :
    write_incomplete_segment [0] 0 0 0 0 (some 536) 1 (some ([1], 1))
        = .error .MssRemaining ∧
      write_incomplete_segment [0] 0 0 0 0 (some 536) 1 (some ([1], 1))
        ≠ .error .SliceTooShort := by
  constructor
  · rfl
  · intro h
    have h2 : (Except.error TcpError.MssRemaining : Except TcpError (List Nat))
        = .error .SliceTooShort := h
    exact TcpError.noConfusion (Except.error.inj h2)

/-- C6 (refuting the termination claim): on an unknown option kind whose length
byte is zero the scan loop never advances, so no amount of fuel finishes it; a
segment with header length 24 whose options bytes are [3, 0, 0, 0] makes
parse_mss_option_unchecked report a diverging run. -/
theorem c6_parse_mss_nonterminating :
    (∀ fuel, parseMssFuel [3, 0, 0, 0] fuel 0 = none) ∧
    parse_mss_option_unchecked
      [0, 0, 0, 0, 0, 0, 0, 0, 0, 0, 0, 0, 96, 0, 0, 0, 0, 0, 0, 0, 3, 0, 0, 0] 24
      = none := by
  have key : ∀ fuel, parseMssFuel [3, 0, 0, 0] fuel 0 = none := by
    intro fuel
    induction fuel with
    | zero => rfl
    | succ n ih =>
      show parseMssFuel [3, 0, 0, 0] (n + 1) 0 = none
      simp only [parseMssFuel, byte, List.getD]
      simp only [List.length_cons, List.length_nil]
      norm_num
      exact ih
  refine ⟨key, ?_⟩
  show parseMssFuel (options_unchecked _ 24) ((options_unchecked _ 24).length + 1) 0 = none
  have hopts : options_unchecked
      [0, 0, 0, 0, 0, 0, 0, 0, 0, 0, 0, 0, 96, 0, 0, 0, 0, 0, 0, 0, 3, 0, 0, 0] 24
      = [3, 0, 0, 0] := rfl
  rw [hopts]
  exact key _

end Dumbo

namespace Dumbo

theorem byte_opt_lt20 (wh : List Nat) (v : Nat) {j : Nat} (hj : j < 20) :
    byte (htons ((wh.set 20 2).set 21 4) 22 v) j = byte wh j := by
  rw [byte_htons_ne _ (by omega) (by omega), byte_set_ne _ (by omega),
    byte_set_ne _ (by omega)]

theorem written_header_facts (buf t : List Nat) (seq ack flags window sl : Nat)
    (hb : 20 ≤ buf.length)
    (hbyte : ∀ j, j < 20 → byte t j = byte (write_header buf seq ack sl flags window) j)
    (hseq : seq < 4294967296) (hack : ack < 4294967296) (hf : flags < 256)
    (hw : window < 65536) :
    (byte t 0 = byte buf 0 ∧ byte t 1 = byte buf 1 ∧ byte t 2 = byte buf 2
      ∧ byte t 3 = byte buf 3 ∧ byte t 16 = byte buf 16 ∧ byte t 17 = byte buf 17)
    ∧ sequence_number t = seq ∧ ack_number t = ack
    ∧ byte t 12 = sl * 4 % 256 ∧ (header_len_rsvd_ns t).2.2 = false
    ∧ flags_after_ns t = flags ∧ window_size t = window ∧ urgent_pointer t = 0 := by
  have h12 : byte t 12 = sl * 4 % 256 := by
    rw [hbyte 12 (by omega), byte12_write_header buf seq ack sl flags window hb]
  refine ⟨⟨?_, ?_, ?_, ?_, ?_, ?_⟩, ?_, ?_, h12, ?_, ?_, ?_, ?_⟩
  · rw [hbyte 0 (by omega), byte_write_header_ne buf seq ack sl flags window (by omega)]
  · rw [hbyte 1 (by omega), byte_write_header_ne buf seq ack sl flags window (by omega)]
  · rw [hbyte 2 (by omega), byte_write_header_ne buf seq ack sl flags window (by omega)]
  · rw [hbyte 3 (by omega), byte_write_header_ne buf seq ack sl flags window (by omega)]
  · rw [hbyte 16 (by omega), byte_write_header_ne buf seq ack sl flags window (by omega)]
  · rw [hbyte 17 (by omega), byte_write_header_ne buf seq ack sl flags window (by omega)]
  · have hs : sequence_number t = sequence_number (write_header buf seq ack sl flags window)
        := by
      unfold sequence_number ntohl
      rw [hbyte 4 (by omega), hbyte (4 + 1) (by omega), hbyte (4 + 2) (by omega),
        hbyte (4 + 3) (by omega)]
    rw [hs, sequence_number_write_header buf seq ack sl flags window hb]
    omega
  · have hs : ack_number t = ack_number (write_header buf seq ack sl flags window) := by
      unfold ack_number ntohl
      rw [hbyte 8 (by omega), hbyte (8 + 1) (by omega), hbyte (8 + 2) (by omega),
        hbyte (8 + 3) (by omega)]
    rw [hs, ack_number_write_header buf seq ack sl flags window hb]
    omega
  · unfold header_len_rsvd_ns
    dsimp only
    rw [h12, Nat.and_one_is_mod]
    have hz : sl * 4 % 256 % 2 = 0 := by omega
    rw [hz]
    rfl
  · unfold flags_after_ns
    rw [hbyte 13 (by omega)]
    have := flags_after_ns_write_header buf seq ack sl flags window hb
    unfold flags_after_ns at this
    rw [this]
    omega
  · have hs : window_size t = window_size (write_header buf seq ack sl flags window) := by
      unfold window_size ntohs
      rw [hbyte 14 (by omega), hbyte (14 + 1) (by omega)]
    rw [hs, window_size_write_header buf seq ack sl flags window hb]
    omega
  · have hs : urgent_pointer t = urgent_pointer (write_header buf seq ack sl flags window)
        := by
      unfold urgent_pointer ntohs
      rw [hbyte 18 (by omega), hbyte (18 + 1) (by omega)]
    rw [hs, urgent_pointer_write_header buf seq ack sl flags window hb]

end Dumbo

namespace Dumbo

/-- C7: a successful write_incomplete_segment leaves the source port bytes
(offsets 0 and 1), destination port bytes (offsets 2 and 3) and checksum bytes
(offsets 16 and 17) exactly as the caller's buffer held them, while it writes
the sequence number, ack number, data-offset byte with NS forced to 0, flags
byte, window size, and a zero urgent pointer. -/
theorem c7_untouched_fields (buf : List Nat) (seq ack flags window mr : Nat)
    (mo : Option Nat) (pa : Option (List Nat × Nat)) (t : List Nat)
    (h : write_incomplete_segment buf seq ack flags window mo mr pa = .ok t)
    (hseq : seq < 4294967296) (hack : ack < 4294967296) (hf : flags < 256)
    (hw : window < 65536) :
    (byte t 0 = byte buf 0 ∧ byte t 1 = byte buf 1 ∧ byte t 2 = byte buf 2
      ∧ byte t 3 = byte buf 3 ∧ byte t 16 = byte buf 16 ∧ byte t 17 = byte buf 17)
    ∧ sequence_number t = seq ∧ ack_number t = ack
    ∧ header_len t = 20 + (if mo.isSome then 4 else 0)
    ∧ (header_len_rsvd_ns t).2.2 = false
    ∧ flags_after_ns t = flags ∧ window_size t = window ∧ urgent_pointer t = 0 := by
  rcases mo with _ | v
  · by_cases hb : buf.length < 20
    · rw [wis_slice_short_none buf seq ack flags window mr pa hb] at h
      simp at h
    · have hbyte : ∀ j, j < 20 → byte t j
          = byte (write_header buf seq ack 20 flags window) j := by
        rcases pa with _ | ⟨pbuf, maxb⟩
        · rw [wis_ok_none_none buf seq ack flags window mr hb] at h
          injection h with h'
          subst h'
          intro j hj
          exact byte_take hj
        · rw [wis_none_payload buf pbuf seq ack flags window mr maxb hb] at h
          split at h
          · simp at h
          next hroom =>
            injection h with h'
            subst h'
            intro j hj
            rw [byte_take (by omega), byte_overwrite_of_lt (by omega)
              (by rw [length_write_header]; omega)]
      have hfacts := written_header_facts buf t seq ack flags window 20 (by omega) hbyte
        hseq hack hf hw
      refine ⟨hfacts.1, hfacts.2.1, hfacts.2.2.1, ?_, hfacts.2.2.2.2.1,
        hfacts.2.2.2.2.2.1, hfacts.2.2.2.2.2.2.1, hfacts.2.2.2.2.2.2.2⟩
      unfold header_len header_len_rsvd_ns
      dsimp only
      rw [hfacts.2.2.2.1]
      decide
  · by_cases h4 : mr < 4
    · rw [wis_mss_remaining buf seq ack flags window v mr pa h4] at h
      simp at h
    · by_cases hb : buf.length < 24
      · rw [wis_slice_short_some buf seq ack flags window v mr pa h4 hb] at h
        simp at h
      · have hbyte : ∀ j, j < 20 → byte t j
            = byte (write_header buf seq ack 24 flags window) j := by
          rcases pa with _ | ⟨pbuf, maxb⟩
          · rw [wis_ok_some_none buf seq ack flags window v mr h4 hb] at h
            injection h with h'
            subst h'
            intro j hj
            rw [byte_take (by omega)]
            exact byte_opt_lt20 _ v hj
          · rw [wis_some_payload buf pbuf seq ack flags window v mr maxb h4 hb] at h
            split at h
            · simp at h
            next hroom =>
              injection h with h'
              subst h'
              intro j hj
              rw [byte_take (by omega), byte_overwrite_of_lt (by omega)
                (by rw [length_htons, List.length_set, List.length_set,
                  length_write_header]; omega)]
              exact byte_opt_lt20 _ v hj
        have hfacts := written_header_facts buf t seq ack flags window 24 (by omega) hbyte
          hseq hack hf hw
        refine ⟨hfacts.1, hfacts.2.1, hfacts.2.2.1, ?_, hfacts.2.2.2.2.1,
          hfacts.2.2.2.2.2.1, hfacts.2.2.2.2.2.2.1, hfacts.2.2.2.2.2.2.2⟩
        unfold header_len header_len_rsvd_ns
        dsimp only
        rw [hfacts.2.2.2.1]
        simp

/-- C7 witness: a concrete successful call on a buffer of sevens preserves the
port and checksum bytes and writes the other header fields. -/
theorem c7_untouched_fields_witness :
    write_incomplete_segment (List.replicate 30 7) 1 2 3 4 none 0 none
        = .ok [7, 7, 7, 7, 0, 0, 0, 1, 0, 0, 0, 2, 80, 3, 0, 4, 7, 7, 0, 0] ∧
      (1:Nat) < 4294967296 ∧ (2:Nat) < 4294967296 ∧ (3:Nat) < 256 ∧ (4:Nat) < 65536 ∧
      ((byte [7, 7, 7, 7, 0, 0, 0, 1, 0, 0, 0, 2, 80, 3, 0, 4, 7, 7, 0, 0] 0
          = byte (List.replicate 30 7) 0
        ∧ byte [7, 7, 7, 7, 0, 0, 0, 1, 0, 0, 0, 2, 80, 3, 0, 4, 7, 7, 0, 0] 1
          = byte (List.replicate 30 7) 1
        ∧ byte [7, 7, 7, 7, 0, 0, 0, 1, 0, 0, 0, 2, 80, 3, 0, 4, 7, 7, 0, 0] 2
          = byte (List.replicate 30 7) 2
        ∧ byte [7, 7, 7, 7, 0, 0, 0, 1, 0, 0, 0, 2, 80, 3, 0, 4, 7, 7, 0, 0] 3
          = byte (List.replicate 30 7) 3
        ∧ byte [7, 7, 7, 7, 0, 0, 0, 1, 0, 0, 0, 2, 80, 3, 0, 4, 7, 7, 0, 0] 16
          = byte (List.replicate 30 7) 16
        ∧ byte [7, 7, 7, 7, 0, 0, 0, 1, 0, 0, 0, 2, 80, 3, 0, 4, 7, 7, 0, 0] 17
          = byte (List.replicate 30 7) 17)
      ∧ sequence_number [7, 7, 7, 7, 0, 0, 0, 1, 0, 0, 0, 2, 80, 3, 0, 4, 7, 7, 0, 0] = 1
      ∧ ack_number [7, 7, 7, 7, 0, 0, 0, 1, 0, 0, 0, 2, 80, 3, 0, 4, 7, 7, 0, 0] = 2
      ∧ header_len [7, 7, 7, 7, 0, 0, 0, 1, 0, 0, 0, 2, 80, 3, 0, 4, 7, 7, 0, 0]
          = 20 + (if (none : Option Nat).isSome then 4 else 0)
      ∧ (header_len_rsvd_ns
          [7, 7, 7, 7, 0, 0, 0, 1, 0, 0, 0, 2, 80, 3, 0, 4, 7, 7, 0, 0]).2.2 = false
      ∧ flags_after_ns [7, 7, 7, 7, 0, 0, 0, 1, 0, 0, 0, 2, 80, 3, 0, 4, 7, 7, 0, 0] = 3
      ∧ window_size [7, 7, 7, 7, 0, 0, 0, 1, 0, 0, 0, 2, 80, 3, 0, 4, 7, 7, 0, 0] = 4
      ∧ urgent_pointer [7, 7, 7, 7, 0, 0, 0, 1, 0, 0, 0, 2, 80, 3, 0, 4, 7, 7, 0, 0]
          = 0) :=
  ⟨rfl, by omega, by omega, by omega, by omega,
    c7_untouched_fields (List.replicate 30 7) 1 2 3 4 0 none none _ rfl
      (by omega) (by omega) (by omega) (by omega)⟩

end Dumbo

namespace Dumbo

/-- C8: when payload data is supplied and the call succeeds, the payload byte
count is the minimum of the available payload bytes, the declared max readable
bytes, the buffer capacity left after header and options, and the MSS budget
left after the option cost; EmptyPayload occurs exactly when this minimum is
zero, and the produced segment length is the header-plus-options length plus the
payload bytes written. -/
theorem c8_payload_truncation (buf pbuf : List Nat) (seq ack flags window mr maxb : Nat)
    (mo : Option Nat)
    (hmss : mo.isSome → 4 ≤ mr)
    (hbuf : 20 + (if mo.isSome then 4 else 0) ≤ buf.length)
    (hcap : buf.length ≤ 65535) :
    (write_incomplete_segment buf seq ack flags window mo mr (some (pbuf, maxb))
        = .error .EmptyPayload
      ↔ min (min (buf.length - (20 + (if mo.isSome then 4 else 0)))
          (if mo.isSome then mr - 4 else mr)) (min pbuf.length maxb) = 0) ∧
    (∀ t, write_incomplete_segment buf seq ack flags window mo mr (some (pbuf, maxb))
        = .ok t →
      t.length = 20 + (if mo.isSome then 4 else 0)
          + min (min (buf.length - (20 + (if mo.isSome then 4 else 0)))
            (if mo.isSome then mr - 4 else mr)) (min pbuf.length maxb)
        ∧ t.drop (20 + (if mo.isSome then 4 else 0))
          = pbuf.take (min (min (buf.length - (20 + (if mo.isSome then 4 else 0)))
            (if mo.isSome then mr - 4 else mr)) (min pbuf.length maxb))) := by
  rcases mo with _ | v
  · simp only [Option.isSome_none, Bool.false_eq_true, if_false, Nat.add_zero] at hbuf ⊢
    have hl1 : len (write_header buf seq ack 20 flags window) = buf.length := by
      unfold len
      rw [length_write_header]
      omega
    rw [wis_none_payload buf pbuf seq ack flags window mr maxb (by omega), hl1]
    constructor
    · by_cases hroom : min (min (buf.length - 20) mr) (min pbuf.length maxb) = 0
      · rw [if_pos hroom]
        simp [hroom]
      · rw [if_neg hroom]
        exact ⟨fun hc => by simp at hc, fun hc => absurd hc hroom⟩
    · intro t h
      split at h
      · simp at h
      next hroom =>
        injection h with h'
        subst h'
        have hrp : min (min (buf.length - 20) mr) (min pbuf.length maxb) ≤ pbuf.length := by
          omega
        have hptl : (pbuf.take (min (min (buf.length - 20) mr)
            (min pbuf.length maxb))).length
            = min (min (buf.length - 20) mr) (min pbuf.length maxb) := by
          rw [List.length_take]
          omega
        have hov : 20 + (pbuf.take (min (min (buf.length - 20) mr)
            (min pbuf.length maxb))).length
            ≤ (write_header buf seq ack 20 flags window).length := by
          rw [hptl, length_write_header]
          omega
        constructor
        · rw [List.length_take, length_overwrite hov, length_write_header]
          omega
        · have heq : 20 + min (min (buf.length - 20) mr) (min pbuf.length maxb)
              = 20 + (pbuf.take (min (min (buf.length - 20) mr)
                (min pbuf.length maxb))).length := by
            rw [hptl]
          rw [heq, drop_take_overwrite hov]
  · simp only [Option.isSome_some, if_true, reduceIte] at hbuf hmss ⊢
    have h4 : ¬ mr < 4 := by
      have := hmss trivial
      omega
    have hl1 : len (htons (((write_header buf seq ack 24 flags window).set 20 2).set 21 4)
        22 v) = buf.length := by
      unfold len
      rw [length_opt_some]
      omega
    rw [wis_some_payload buf pbuf seq ack flags window v mr maxb h4 (by omega), hl1]
    constructor
    · by_cases hroom : min (min (buf.length - 24) (mr - 4)) (min pbuf.length maxb) = 0
      · rw [if_pos hroom]
        simp [hroom]
      · rw [if_neg hroom]
        exact ⟨fun hc => by simp at hc, fun hc => absurd hc hroom⟩
    · intro t h
      split at h
      · simp at h
      next hroom =>
        injection h with h'
        subst h'
        have hrp : min (min (buf.length - 24) (mr - 4)) (min pbuf.length maxb)
            ≤ pbuf.length := by omega
        have hptl : (pbuf.take (min (min (buf.length - 24) (mr - 4))
            (min pbuf.length maxb))).length
            = min (min (buf.length - 24) (mr - 4)) (min pbuf.length maxb) := by
          rw [List.length_take]
          omega
        have hov : 24 + (pbuf.take (min (min (buf.length - 24) (mr - 4))
            (min pbuf.length maxb))).length
            ≤ (htons (((write_header buf seq ack 24 flags window).set 20 2).set 21 4)
              22 v).length := by
          rw [hptl, length_opt_some]
          omega
        constructor
        · rw [List.length_take, length_overwrite hov, length_opt_some]
          omega
        · have heq : 24 + min (min (buf.length - 24) (mr - 4)) (min pbuf.length maxb)
              = 24 + (pbuf.take (min (min (buf.length - 24) (mr - 4))
                (min pbuf.length maxb))).length := by
            rw [hptl]
          rw [heq, drop_take_overwrite hov]

/-- C8 witness: the spec's concrete case, a 2000-byte payload with declared
max-readable 2000 and budget 1460 written into a 1460-byte buffer with a 4-byte
MSS option, succeeds and produces a segment of length exactly 1460. -/
theorem c8_payload_truncation_witness :
    ((some 1460 : Option Nat).isSome → 4 ≤ 1460) ∧
    20 + (if (some 1460 : Option Nat).isSome then 4 else 0)
      ≤ (List.replicate 1460 (0:Nat)).length ∧
    (List.replicate 1460 (0:Nat)).length ≤ 65535 ∧
    20 + (if (some 1460 : Option Nat).isSome then 4 else 0)
      + min (min ((List.replicate 1460 (0:Nat)).length
          - (20 + (if (some 1460 : Option Nat).isSome then 4 else 0)))
        (if (some 1460 : Option Nat).isSome then 1460 - 4 else 1460))
        (min (List.replicate 2000 (7:Nat)).length 2000) = 1460 ∧
    (∀ t, write_incomplete_segment (List.replicate 1460 0) 11 22 2 9000 (some 1460) 1460
        (some (List.replicate 2000 7, 2000)) = .ok t →
      t.length = 20 + (if (some 1460 : Option Nat).isSome then 4 else 0)
          + min (min ((List.replicate 1460 (0:Nat)).length
              - (20 + (if (some 1460 : Option Nat).isSome then 4 else 0)))
            (if (some 1460 : Option Nat).isSome then 1460 - 4 else 1460))
            (min (List.replicate 2000 (7:Nat)).length 2000)
        ∧ t.drop (20 + (if (some 1460 : Option Nat).isSome then 4 else 0))
          = (List.replicate 2000 (7:Nat)).take
            (min (min ((List.replicate 1460 (0:Nat)).length
                - (20 + (if (some 1460 : Option Nat).isSome then 4 else 0)))
              (if (some 1460 : Option Nat).isSome then 1460 - 4 else 1460))
              (min (List.replicate 2000 (7:Nat)).length 2000))) :=
  ⟨fun _ => by omega,
    by simp only [List.length_replicate, Option.isSome_some, reduceIte]; omega,
    by simp only [List.length_replicate]; omega,
    by simp only [List.length_replicate, Option.isSome_some, reduceIte]; omega,
    (c8_payload_truncation (List.replicate 1460 0) (List.replicate 2000 7) 11 22 2 9000
      1460 2000 (some 1460) (fun _ => by omega)
      (by simp only [List.length_replicate, Option.isSome_some, reduceIte]; omega)
      (by simp only [List.length_replicate]; omega)).2⟩

end Dumbo

namespace Dumbo

theorem wis_ok_min_length (buf : List Nat) (seq ack flags window mr : Nat)
    (mo : Option Nat) (pa : Option (List Nat × Nat)) (t : List Nat)
    (h : write_incomplete_segment buf seq ack flags window mo mr pa = .ok t) :
    20 ≤ t.length := by
  rcases mo with _ | v
  · by_cases hb : buf.length < 20
    · rw [wis_slice_short_none buf seq ack flags window mr pa hb] at h
      simp at h
    · rcases pa with _ | ⟨pbuf, maxb⟩
      · rw [wis_ok_none_none buf seq ack flags window mr hb] at h
        injection h with h'
        subst h'
        rw [List.length_take, length_write_header]
        omega
      · rw [wis_none_payload buf pbuf seq ack flags window mr maxb hb] at h
        split at h
        · simp at h
        next hroom =>
          injection h with h'
          subst h'
          have hls : len (write_header buf seq ack 20 flags window)
              = min buf.length 65535 := by
            unfold len
            rw [length_write_header]
          have hpt : (pbuf.take (min (min (len (write_header buf seq ack 20 flags window)
              - 20) mr) (min pbuf.length maxb))).length
              = min (min (min (len (write_header buf seq ack 20 flags window) - 20) mr)
                (min pbuf.length maxb)) pbuf.length := List.length_take _ _
          rw [List.length_take, length_overwrite (by rw [hpt, length_write_header]; omega),
            length_write_header]
          omega
  · by_cases h4 : mr < 4
    · rw [wis_mss_remaining buf seq ack flags window v mr pa h4] at h
      simp at h
    · by_cases hb : buf.length < 24
      · rw [wis_slice_short_some buf seq ack flags window v mr pa h4 hb] at h
        simp at h
      · rcases pa with _ | ⟨pbuf, maxb⟩
        · rw [wis_ok_some_none buf seq ack flags window v mr h4 hb] at h
          injection h with h'
          subst h'
          rw [List.length_take, length_opt_some]
          omega
        · rw [wis_some_payload buf pbuf seq ack flags window v mr maxb h4 hb] at h
          split at h
          · simp at h
          next hroom =>
            injection h with h'
            subst h'
            have hls : len (htons (((write_header buf seq ack 24 flags window).set 20
                2).set 21 4) 22 v) = min buf.length 65535 := by
              unfold len
              rw [length_opt_some]
            have hpt : (pbuf.take (min (min (len (htons (((write_header buf seq ack 24
                flags window).set 20 2).set 21 4) 22 v) - 24) (mr - 4))
                (min pbuf.length maxb))).length
                = min (min (min (len (htons (((write_header buf seq ack 24 flags
                  window).set 20 2).set 21 4) 22 v) - 24) (mr - 4))
                  (min pbuf.length maxb)) pbuf.length := List.length_take _ _
            rw [List.length_take, length_overwrite (by rw [hpt, length_opt_some]; omega),
              length_opt_some]
            omega

/-- C2: after a write with checksum computation requested, recomputing the
checksum over the produced as-received bytes, checksum field included, yields
zero; the value held by the checksum field equals the checksum computed with the
field zeroed; and every segment produced by write_segment with addresses
supplied verifies to zero. -/
theorem c2_finalize_checksum (s : List Nat) (sp dp : Nat) (src dst : Ipv4Addr)
    (h : 17 < s.length) :
    compute_checksum (finalize s sp dp (some (src, dst))) src dst = 0 ∧
    checksum (finalize s sp dp (some (src, dst)))
      = compute_checksum (set_checksum (finalize s sp dp (some (src, dst))) 0) src dst ∧
    (∀ buf spb dpb seq ack flags window mo mr pa t,
      write_segment buf spb dpb seq ack flags window mo mr pa (some (src, dst)) = .ok t →
      compute_checksum t src dst = 0) := by
  refine ⟨finalize_verifies s sp dp src dst h, ?_, ?_⟩
  · rw [checksum_finalize s sp dp src dst h, set_checksum_finalize s sp dp src dst]
  · intro buf spb dpb seq ack flags window mo mr pa t hw
    unfold write_segment at hw
    split at hw
    · simp at hw
    next s' heq =>
      injection hw with hw'
      subst hw'
      exact finalize_verifies s' spb dpb src dst
        (by have := wis_ok_min_length buf seq ack flags window mr mo pa s' heq; omega)

/-- C2 witness: a concrete finalize over a 20-byte buffer of fives verifies to
zero and stores the complement checksum. -/
theorem c2_finalize_checksum_witness :
    17 < (List.replicate 20 (5:Nat)).length ∧
    (compute_checksum (finalize (List.replicate 20 5) 1 2
        (some (Ipv4Addr.mk 10 1 2 3, Ipv4Addr.mk 192 168 44 77)))
        (Ipv4Addr.mk 10 1 2 3) (Ipv4Addr.mk 192 168 44 77) = 0 ∧
      checksum (finalize (List.replicate 20 5) 1 2
          (some (Ipv4Addr.mk 10 1 2 3, Ipv4Addr.mk 192 168 44 77)))
        = compute_checksum (set_checksum (finalize (List.replicate 20 5) 1 2
            (some (Ipv4Addr.mk 10 1 2 3, Ipv4Addr.mk 192 168 44 77))) 0)
          (Ipv4Addr.mk 10 1 2 3) (Ipv4Addr.mk 192 168 44 77) ∧
      (∀ buf spb dpb seq ack flags window mo mr pa t,
        write_segment buf spb dpb seq ack flags window mo mr pa
            (some (Ipv4Addr.mk 10 1 2 3, Ipv4Addr.mk 192 168 44 77)) = .ok t →
        compute_checksum t (Ipv4Addr.mk 10 1 2 3) (Ipv4Addr.mk 192 168 44 77) = 0)) :=
  ⟨by rw [List.length_replicate]; omega,
    c2_finalize_checksum (List.replicate 20 5) 1 2 _ _
      (by rw [List.length_replicate]; omega)⟩

end Dumbo

namespace Dumbo

theorem bit_val (c : Bool) (m : Nat) : Nat.bit c m = 2 * m + c.toNat := by
  cases c <;> simp [Nat.bit]

theorem xor_two_pow (k : Nat) : ∀ b : Nat,
    b ^^^ 2 ^ k = if b.testBit k then b - 2 ^ k else b + 2 ^ k := by
  induction k with
  | zero =>
    intro b
    have hb := Nat.bit_decomp b
    have h1 : (2 : Nat) ^ 0 = Nat.bit true 0 := by rw [bit_val]; simp
    have hx : b ^^^ 2 ^ 0 = Nat.bit (b.bodd != true) (b.div2 ^^^ 0) := by
      conv_lhs => rw [← hb, h1, Nat.xor_bit]
    rw [Nat.xor_zero] at hx
    have hbd := Nat.bodd_add_div2 b
    rw [hx, Nat.testBit_zero, bit_val]
    by_cases hm : b % 2 = 1
    · have hob : b.bodd = true := by
        cases hob2 : b.bodd
        · rw [hob2] at hbd; simp at hbd; omega
        · rfl
      rw [hob] at hbd
      simp only [Bool.toNat_true] at hbd
      simp [hm, hob]
      omega
    · have hob : b.bodd = false := by
        cases hob2 : b.bodd
        · rfl
        · rw [hob2] at hbd; simp at hbd; omega
      rw [hob] at hbd
      simp only [Bool.toNat_false, Nat.zero_add] at hbd
      simp [hm, hob]
      omega
  | succ k ih =>
    intro b
    have hb := Nat.bit_decomp b
    have h2 : (2 : Nat) ^ (k + 1) = Nat.bit false (2 ^ k) := by
      rw [bit_val, Bool.toNat_false, Nat.pow_succ]
      ring
    have hx : b ^^^ 2 ^ (k + 1) = Nat.bit (b.bodd != false) (b.div2 ^^^ 2 ^ k) := by
      conv_lhs => rw [← hb, h2, Nat.xor_bit]
    have hbd := Nat.bodd_add_div2 b
    have ihd := ih b.div2
    rw [hx, Nat.testBit_add_one, ← Nat.div2_val, bit_val, ihd, h2, bit_val]
    cases htb : b.div2.testBit k
    · cases hob : b.bodd
      · rw [hob] at hbd
        simp only [Bool.toNat_false, Nat.zero_add] at hbd
        simp [htb, hob]
        omega
      · rw [hob] at hbd
        simp only [Bool.toNat_true] at hbd
        simp [htb, hob]
        omega
    · have hge := Nat.testBit_implies_ge htb
      cases hob : b.bodd
      · rw [hob] at hbd
        simp only [Bool.toNat_false, Nat.zero_add] at hbd
        simp [htb, hob]
        omega
      · rw [hob] at hbd
        simp only [Bool.toNat_true] at hbd
        simp [htb, hob]
        omega

end Dumbo

namespace Dumbo

/-- C9: the checksum is deterministic in the segment bytes and the address pair,
and flipping any single bit of a byte outside the checksum field always changes
the computed checksum to a different value. -/
theorem c9_checksum_bitflip (s : List Nat) (src dst : Ipv4Addr) (i k : Nat)
    (hi : i < s.length) (hk : k < 8) (h16 : i ≠ 16) (h17 : i ≠ 17) :
    (∀ s2 src2 dst2, s2 = s → src2 = src → dst2 = dst →
      compute_checksum s2 src2 dst2 = compute_checksum s src dst) ∧
    compute_checksum (s.set i (byte s i ^^^ 2 ^ k)) src dst
      ≠ compute_checksum s src dst := by
  refine ⟨fun s2 src2 dst2 e1 e2 e3 => by rw [e1, e2, e3], ?_⟩
  intro heq
  unfold compute_checksum at heq
  rw [List.length_set] at heq
  rw [sum16_append_even (pseudoBytes src dst s.length) _
      (by rw [length_pseudoBytes]),
    sum16_append_even (pseudoBytes src dst s.length) s
      (by rw [length_pseudoBytes])] at heq
  have hle1 := foldCarry_le (sum16 (pseudoBytes src dst s.length)
    + sum16 (s.set i (byte s i ^^^ 2 ^ k)))
  have hle2 := foldCarry_le (sum16 (pseudoBytes src dst s.length) + sum16 s)
  have hmod1 := foldCarry_mod (sum16 (pseudoBytes src dst s.length)
    + sum16 (s.set i (byte s i ^^^ 2 ^ k)))
  have hmod2 := foldCarry_mod (sum16 (pseudoBytes src dst s.length) + sum16 s)
  have hset := sum16_set s i (byte s i ^^^ 2 ^ k) hi
  have hkb : 2 ^ k ≤ 128 := by
    calc 2 ^ k ≤ 2 ^ 7 := Nat.pow_le_pow_right (by omega) (by omega)
    _ = 128 := by norm_num
  have hpos : 0 < 2 ^ k := Nat.pos_pow_of_pos k (by omega)
  cases htb : (byte s i).testBit k
  · rw [xor_two_pow k (byte s i), htb] at heq hset hle1 hmod1
    simp only [Bool.false_eq_true, if_false] at heq hset hle1 hmod1
    by_cases hpar : i % 2 = 0
    · rw [if_pos hpar] at hset
      omega
    · rw [if_neg hpar] at hset
      omega
  · have hge := Nat.testBit_implies_ge htb
    rw [xor_two_pow k (byte s i), htb] at heq hset hle1 hmod1
    simp only [if_true] at heq hset hle1 hmod1
    by_cases hpar : i % 2 = 0
    · rw [if_pos hpar] at hset
      omega
    · rw [if_neg hpar] at hset
      omega

/-- C9 witness: at a concrete 20-byte segment, flipping bit 0 of byte 0 changes
the checksum. -/
theorem c9_checksum_bitflip_witness :
    (0:Nat) < (List.replicate 20 (5:Nat)).length ∧ (0:Nat) < 8 ∧ (0:Nat) ≠ 16
      ∧ (0:Nat) ≠ 17 ∧
    ((∀ s2 src2 dst2, s2 = List.replicate 20 (5:Nat) → src2 = Ipv4Addr.mk 10 1 2 3 →
        dst2 = Ipv4Addr.mk 192 168 44 77 →
        compute_checksum s2 src2 dst2
          = compute_checksum (List.replicate 20 5) (Ipv4Addr.mk 10 1 2 3)
            (Ipv4Addr.mk 192 168 44 77)) ∧
      compute_checksum ((List.replicate 20 5).set 0 (byte (List.replicate 20 5) 0 ^^^ 2 ^ 0))
          (Ipv4Addr.mk 10 1 2 3) (Ipv4Addr.mk 192 168 44 77)
        ≠ compute_checksum (List.replicate 20 5) (Ipv4Addr.mk 10 1 2 3)
            (Ipv4Addr.mk 192 168 44 77)) :=
  ⟨by rw [List.length_replicate]; omega, by omega, by omega, by omega,
    c9_checksum_bitflip (List.replicate 20 5) _ _ 0 0
      (by rw [List.length_replicate]; omega) (by omega) (by omega) (by omega)⟩

end Dumbo

namespace Dumbo

/-- One-pass option scan as the specification describes it: EOL (0x00) stops
with no MSS; NOP (0x01) advances one byte; MSS (0x02) reads the 16-bit
big-endian value two bytes after the kind, failing below the sanity floor 100
and returning the value unchanged otherwise; any other kind advances by the byte
immediately following the kind; the scan stops with no MSS as soon as fewer than
4 bytes remain. -/
inductive MssScan (b : List Nat) : Nat → Except TcpError (Option Nat) → Prop where
  | stop (i : Nat) (h : ¬ i + 3 < b.length) : MssScan b i (.ok none)
  | eol (i : Nat) (h : i + 3 < b.length) (hk : byte b i = 0) : MssScan b i (.ok none)
  | nop (i : Nat) (r : Except TcpError (Option Nat)) (h : i + 3 < b.length)
      (hk : byte b i = 1) (hs : MssScan b (i + 1) r) : MssScan b i r
  | mssLow (i : Nat) (h : i + 3 < b.length) (hk : byte b i = 2)
      (hv : ntohs b (i + 2) < 100) : MssScan b i (.error .MssOption)
  | mssOk (i : Nat) (h : i + 3 < b.length) (hk : byte b i = 2)
      (hv : ¬ ntohs b (i + 2) < 100) : MssScan b i (.ok (some (ntohs b (i + 2))))
  | other (i : Nat) (r : Except TcpError (Option Nat)) (h : i + 3 < b.length)
      (hk : 3 ≤ byte b i) (hs : MssScan b (i + byte b (i + 1)) r) : MssScan b i r

theorem parseMssFuel_scan :
    ∀ (fuel : Nat) (b : List Nat) (i : Nat) (r : Except TcpError (Option Nat)),
      parseMssFuel b fuel i = some r → MssScan b i r := by
  intro fuel
  induction fuel with
  | zero => intro b i r h; simp [parseMssFuel] at h
  | succ n ih =>
    intro b i r h
    rw [parseMssFuel] at h
    by_cases hg : i + 3 < b.length
    · rw [if_pos hg] at h
      cases hbk : byte b i with
      | zero =>
        rw [hbk] at h
        simp at h
        subst h
        exact MssScan.eol i hg hbk
      | succ m =>
        cases m with
        | zero =>
          rw [hbk] at h
          exact MssScan.nop i r hg hbk (ih b (i + 1) r h)
        | succ m2 =>
          cases m2 with
          | zero =>
            rw [hbk] at h
            dsimp only at h
            split at h
            · simp at h
              subst h
              exact MssScan.mssLow i hg hbk (by assumption)
            · simp at h
              subst h
              exact MssScan.mssOk i hg hbk (by assumption)
          | succ m3 =>
            rw [hbk] at h
            exact MssScan.other i r hg (by rw [hbk]; omega) (ih b (i + byte b (i + 1)) r h)
    · rw [if_neg hg] at h
      simp at h
      subst h
      exact MssScan.stop i hg
end Dumbo

namespace Dumbo

theorem scan_parseMssFuel {b : List Nat} {i : Nat} {r : Except TcpError (Option Nat)}
    (h : MssScan b i r) : ∃ fuel, parseMssFuel b fuel i = some r := by
  induction h with
  | stop i h => exact ⟨1, by rw [parseMssFuel, if_neg h]⟩
  | eol i h hk => exact ⟨1, by rw [parseMssFuel, if_pos h, hk]⟩
  | nop i r h hk hs ih =>
    rcases ih with ⟨f, hf⟩
    exact ⟨f + 1, by rw [parseMssFuel, if_pos h, hk]; exact hf⟩
  | mssLow i h hk hv =>
    exact ⟨1, by rw [parseMssFuel, if_pos h, hk]; dsimp only; rw [if_pos hv]⟩
  | mssOk i h hk hv =>
    exact ⟨1, by rw [parseMssFuel, if_pos h, hk]; dsimp only; rw [if_neg hv]⟩
  | other i r h hk hs ih =>
    rcases ih with ⟨f, hf⟩
    refine ⟨f + 1, ?_⟩
    rw [parseMssFuel, if_pos h]
    have hb3 : byte b i = (byte b i - 3) + 3 := by omega
    rw [hb3]
    exact hf

/-- C4: the option scan loop realizes exactly the specified one-pass scan: a
result is produced by the loop (with some fuel) precisely when the
specification-level scan relation derives it, and every result reported by
parse_mss_option_unchecked is derived by that relation on the options region. -/
theorem c4_parse_mss_scan (b : List Nat) (r : Except TcpError (Option Nat)) :
    ((∃ fuel, parseMssFuel b fuel 0 = some r) ↔ MssScan b 0 r) ∧
    (∀ s hl, parse_mss_option_unchecked s hl = some r
      → MssScan (options_unchecked s hl) 0 r) := by
  constructor
  · constructor
    · intro h
      rcases h with ⟨f, hf⟩
      exact parseMssFuel_scan f b 0 r hf
    · intro h
      exact scan_parseMssFuel h
  · intro s hl h
    exact parseMssFuel_scan _ _ 0 r h

/-- C4 witness: on the concrete options bytes of a 4-byte MSS option carrying
1460, the loop finds the value and the scan relation derives it. -/
theorem c4_parse_mss_scan_witness :
    ((∃ fuel, parseMssFuel [2, 4, 5, 180] fuel 0 = some (.ok (some 1460)))
      ↔ MssScan [2, 4, 5, 180] 0 (.ok (some 1460))) ∧
    (∃ fuel, parseMssFuel [2, 4, 5, 180] fuel 0 = some (.ok (some 1460))) :=
  ⟨(c4_parse_mss_scan [2, 4, 5, 180] (.ok (some 1460))).1, ⟨1, rfl⟩⟩

end Dumbo

namespace Dumbo

theorem finalize_preserves_mid (s : List Nat) (sp dp : Nat)
    (cks : Option (Ipv4Addr × Ipv4Addr)) :
    sequence_number (finalize s sp dp cks) = sequence_number s
    ∧ ack_number (finalize s sp dp cks) = ack_number s
    ∧ byte (finalize s sp dp cks) 12 = byte s 12
    ∧ flags_after_ns (finalize s sp dp cks) = flags_after_ns s
    ∧ window_size (finalize s sp dp cks) = window_size s := by
  refine ⟨?_, ?_, ?_, ?_, ?_⟩
  · unfold sequence_number ntohl
    rw [byte_finalize_ne _ _ _ _ (by omega) (by omega) (by omega),
      byte_finalize_ne _ _ _ _ (by omega) (by omega) (by omega),
      byte_finalize_ne _ _ _ _ (by omega) (by omega) (by omega),
      byte_finalize_ne _ _ _ _ (by omega) (by omega) (by omega)]
  · unfold ack_number ntohl
    rw [byte_finalize_ne _ _ _ _ (by omega) (by omega) (by omega),
      byte_finalize_ne _ _ _ _ (by omega) (by omega) (by omega),
      byte_finalize_ne _ _ _ _ (by omega) (by omega) (by omega),
      byte_finalize_ne _ _ _ _ (by omega) (by omega) (by omega)]
  · exact byte_finalize_ne _ _ _ _ (by omega) (by omega) (by omega)
  · unfold flags_after_ns
    exact byte_finalize_ne _ _ _ _ (by omega) (by omega) (by omega)
  · unfold window_size ntohs
    rw [byte_finalize_ne _ _ _ _ (by omega) (by omega) (by omega),
      byte_finalize_ne _ _ _ _ (by omega) (by omega) (by omega)]

theorem byte_options (t : List Nat) (hl j : Nat) (hj : 20 + j < hl) :
    byte (options_unchecked t hl) j = byte t (20 + j) := by
  unfold options_unchecked byte
  simp only [List.getD_eq_getElem?_getD, List.getElem?_drop, List.getElem?_take]
  rw [if_pos (by omega)]

theorem length_options (t : List Nat) (hl : Nat) (h : hl ≤ t.length) :
    (options_unchecked t hl).length = hl - 20 := by
  simp only [options_unchecked, List.length_drop, List.length_take]
  omega

theorem finalize_layer (s' : List Nat) (sp dp : Nat) (src dst : Ipv4Addr) (hl : Nat)
    (h20 : 20 ≤ s'.length) (hcap : s'.length ≤ 65535)
    (hb12 : byte s' 12 = hl * 4 % 256) (hhl : hl = 20 ∨ hl = 24) (hhls : hl ≤ s'.length) :
    from_bytes (finalize s' sp dp (some (src, dst))) (some (src, dst))
        = .ok (finalize s' sp dp (some (src, dst)))
    ∧ source_port (finalize s' sp dp (some (src, dst))) = sp % 65536
    ∧ destination_port (finalize s' sp dp (some (src, dst))) = dp % 65536
    ∧ header_len (finalize s' sp dp (some (src, dst))) = hl
    ∧ sequence_number (finalize s' sp dp (some (src, dst))) = sequence_number s'
    ∧ ack_number (finalize s' sp dp (some (src, dst))) = ack_number s'
    ∧ flags_after_ns (finalize s' sp dp (some (src, dst))) = flags_after_ns s'
    ∧ window_size (finalize s' sp dp (some (src, dst))) = window_size s'
    ∧ payload (finalize s' sp dp (some (src, dst))) = s'.drop hl
    ∧ (∀ j, 20 ≤ j → byte (finalize s' sp dp (some (src, dst))) j = byte s' j)
    ∧ (finalize s' sp dp (some (src, dst))).length = s'.length := by
  have hlen := length_finalize s' sp dp (some (src, dst))
  have hmid := finalize_preserves_mid s' sp dp (some (src, dst))
  have hhdr : header_len (finalize s' sp dp (some (src, dst))) = hl := by
    unfold header_len header_len_rsvd_ns
    dsimp only
    rw [hmid.2.2.1, hb12]
    rcases hhl with h | h <;> subst h <;> norm_num
  refine ⟨?_, source_port_finalize s' sp dp _ (by omega),
    destination_port_finalize s' sp dp _ (by omega), hhdr,
    hmid.1, hmid.2.1, hmid.2.2.2.1, hmid.2.2.2.2, ?_, ?_, hlen⟩
  · apply (fb_ok_iff _ _).mpr
    refine ⟨by omega, ?_, ?_⟩
    · rw [hhdr]
      unfold len
      rw [hlen]
      omega
    · rintro a b hab
      cases hab
      exact finalize_verifies s' sp dp src dst (by omega)
  · unfold payload
    rw [hhdr]
    exact drop_finalize s' sp dp _ (by omega)
  · intro j hj
    exact byte_finalize_ne s' sp dp _ (by omega) (by omega) (by omega)

end Dumbo

namespace Dumbo

theorem byte_opt_20_23 (wh : List Nat) (v : Nat) (h : 24 ≤ wh.length) :
    byte (htons ((wh.set 20 2).set 21 4) 22 v) 20 = 2
    ∧ byte (htons ((wh.set 20 2).set 21 4) 22 v) 21 = 4
    ∧ byte (htons ((wh.set 20 2).set 21 4) 22 v) 22 = v % 65536 / 256
    ∧ byte (htons ((wh.set 20 2).set 21 4) 22 v) 23 = v % 256 := by
  refine ⟨?_, ?_, ?_, ?_⟩
  · rw [byte_htons_ne _ (by omega) (by omega), byte_set_ne _ (by omega),
      byte_set_self _ (by omega)]
  · rw [byte_htons_ne _ (by omega) (by omega),
      byte_set_self _ (by simp only [List.length_set]; omega)]
  · rw [byte_htons_hi _ (by simp only [List.length_set]; omega)]
  · have hx := byte_htons_lo (s := (wh.set 20 2).set 21 4) (o := 22) v
      (by simp only [List.length_set]; omega)
    simpa using hx

theorem parse_mss_none (t : List Nat) (hhl : header_len t = 20) (hlen : 20 ≤ t.length) :
    parse_mss_option_unchecked t (header_len t) = some (.ok none) := by
  rw [hhl]
  unfold parse_mss_option_unchecked
  have hb : options_unchecked t 20 = [] := by
    have h0 := length_options t 20 hlen
    simp only [Nat.sub_self] at h0
    exact List.eq_nil_of_length_eq_zero h0
  rw [hb]
  rfl

theorem parse_mss_some (t : List Nat) (v : Nat) (hv : 100 ≤ v) (hv2 : v < 65536)
    (hhl : header_len t = 24) (hlen : 24 ≤ t.length)
    (h20 : byte t 20 = 2) (h22 : byte t 22 = v % 65536 / 256)
    (h23 : byte t 23 = v % 256) :
    parse_mss_option_unchecked t (header_len t) = some (.ok (some v)) := by
  rw [hhl]
  unfold parse_mss_option_unchecked
  have hblen : (options_unchecked t 24).length = 4 := by rw [length_options t 24 hlen]
  have hb0 : byte (options_unchecked t 24) 0 = 2 := by
    have hx := byte_options t 24 0 (by omega)
    simpa [hx] using h20
  have hnt : ntohs (options_unchecked t 24) (0 + 2) = v := by
    unfold ntohs
    have hx2 := byte_options t 24 (0 + 2) (by omega)
    have hx3 := byte_options t 24 (0 + 2 + 1) (by omega)
    rw [hx2, hx3]
    norm_num
    rw [h22, h23]
    omega
  rw [hblen, parseMssFuel, if_pos (by rw [hblen]; omega), hb0]
  dsimp only
  rw [if_neg (by rw [hnt]; omega), hnt]

end Dumbo

namespace Dumbo

/-- C1: for every valid input tuple, write_segment followed by from_bytes with
checksum verification succeeds, and every accessor of the resulting view returns
exactly the original inputs: ports, sequence and ack numbers, flags, window
size, the parsed MSS option, and the payload. -/
theorem c1_round_trip (buf : List Nat) (sp dp seq ack flags window mr : Nat)
    (mo : Option Nat) (p : Option (List Nat)) (src dst : Ipv4Addr)
    (hsp : sp < 65536) (hdp : dp < 65536) (hseq : seq < 4294967296)
    (hack : ack < 4294967296) (hf : flags < 256) (hw : window < 65536)
    (hmo : ∀ v, mo = some v → 100 ≤ v ∧ v < 65536 ∧ 4 ≤ mr)
    (hbuf : 20 + (if mo.isSome then 4 else 0) + (p.getD []).length ≤ buf.length)
    (hcap : buf.length ≤ 65535)
    (hp : ∀ q, p = some q → q ≠ [] ∧ q.length ≤ mr - (if mo.isSome then 4 else 0)) :
    ∃ t, write_segment buf sp dp seq ack flags window mo mr
        (p.map (fun q => (q, q.length))) (some (src, dst)) = .ok t
      ∧ from_bytes t (some (src, dst)) = .ok t
      ∧ source_port t = sp ∧ destination_port t = dp
      ∧ sequence_number t = seq ∧ ack_number t = ack
      ∧ flags_after_ns t = flags ∧ window_size t = window
      ∧ parse_mss_option_unchecked t (header_len t) = some (.ok mo)
      ∧ payload t = p.getD [] := by
  rcases mo with _ | v
  · simp only [Option.isSome_none, Bool.false_eq_true, if_false, Nat.add_zero,
      Nat.sub_zero] at hbuf hp
    rcases p with _ | q
    · simp only [Option.getD_none, List.length_nil, Nat.add_zero] at hbuf
      have hpa : Option.map (fun q : List Nat => (q, q.length)) none
          = (none : Option (List Nat × Nat)) := rfl
      rw [hpa]
      have hws := wis_ok_none_none buf seq ack flags window mr (by omega)
      set s' := (write_header buf seq ack 20 flags window).take 20 with hs'
      have hlen' : s'.length = 20 := by
        rw [hs', List.length_take, length_write_header]
        omega
      have hbyte : ∀ j, j < 20 → byte s' j
          = byte (write_header buf seq ack 20 flags window) j :=
        fun j hj => byte_take hj
      obtain ⟨hbb, hseqw, hackw, hb12w, hnsw, hflagsw, hwinw, hurgw⟩ :=
        written_header_facts buf s' seq ack flags window 20 (by omega) hbyte
          hseq hack hf hw
      obtain ⟨hfb, hsp', hdp', hhl', hseq', hack', hflags', hwin', hpay', hbytes', hlen2⟩ :=
        finalize_layer s' sp dp src dst 20 (by omega) (by omega) hb12w (Or.inl rfl)
          (by omega)
      refine ⟨_, ?_, hfb, ?_, ?_, ?_, ?_, ?_, ?_, ?_, ?_⟩
      · unfold write_segment
        rw [hws]
      · rw [hsp']; omega
      · rw [hdp']; omega
      · rw [hseq', hseqw]
      · rw [hack', hackw]
      · rw [hflags', hflagsw]
      · rw [hwin', hwinw]
      · exact parse_mss_none _ hhl' (by omega)
      · rw [hpay']
        have h0 : (s'.drop 20).length = 0 := by rw [List.length_drop, hlen']
        rw [List.eq_nil_of_length_eq_zero h0]
        rfl
    · simp only [Option.getD_some] at hbuf
      obtain ⟨hqne, hqm⟩ := hp q rfl
      have hq0 : 0 < q.length := List.length_pos.mpr hqne
      have hpa : Option.map (fun q : List Nat => (q, q.length)) (some q)
          = some (q, q.length) := rfl
      rw [hpa]
      have hlen1 : len (write_header buf seq ack 20 flags window) = buf.length := by
        unfold len
        rw [length_write_header]
        omega
      have hws := wis_none_payload buf q seq ack flags window mr q.length (by omega)
      have hr : min (min (len (write_header buf seq ack 20 flags window) - 20) mr)
          (min q.length q.length) = q.length := by
        rw [hlen1]
        omega
      rw [hr, if_neg (by omega), List.take_length] at hws
      have hov : 20 + q.length ≤ (write_header buf seq ack 20 flags window).length := by
        rw [length_write_header]
        omega
      set s' := (overwrite (write_header buf seq ack 20 flags window) 20 q).take
        (20 + q.length) with hs'
      have hlen' : s'.length = 20 + q.length := by
        rw [hs', List.length_take, length_overwrite hov, length_write_header]
        omega
      have hbyte : ∀ j, j < 20 → byte s' j
          = byte (write_header buf seq ack 20 flags window) j := by
        intro j hj
        rw [hs', byte_take (by omega),
          byte_overwrite_of_lt (by omega) (by rw [length_write_header]; omega)]
      have hdrop : s'.drop 20 = q := by
        rw [hs']
        exact drop_take_overwrite hov
      obtain ⟨hbb, hseqw, hackw, hb12w, hnsw, hflagsw, hwinw, hurgw⟩ :=
        written_header_facts buf s' seq ack flags window 20 (by omega) hbyte
          hseq hack hf hw
      obtain ⟨hfb, hsp', hdp', hhl', hseq', hack', hflags', hwin', hpay', hbytes', hlen2⟩ :=
        finalize_layer s' sp dp src dst 20 (by omega) (by omega) hb12w (Or.inl rfl)
          (by omega)
      refine ⟨_, ?_, hfb, ?_, ?_, ?_, ?_, ?_, ?_, ?_, ?_⟩
      · unfold write_segment
        rw [hws]
      · rw [hsp']; omega
      · rw [hdp']; omega
      · rw [hseq', hseqw]
      · rw [hack', hackw]
      · rw [hflags', hflagsw]
      · rw [hwin', hwinw]
      · exact parse_mss_none _ hhl' (by omega)
      · rw [hpay', hdrop]
        rfl
  · obtain ⟨hv100, hv65536, hmr4⟩ := hmo v rfl
    simp only [Option.isSome_some, reduceIte] at hbuf hp
    rcases p with _ | q
    · simp only [Option.getD_none, List.length_nil, Nat.add_zero] at hbuf
      have hpa : Option.map (fun q : List Nat => (q, q.length)) none
          = (none : Option (List Nat × Nat)) := rfl
      rw [hpa]
      have hws := wis_ok_some_none buf seq ack flags window v mr (by omega) (by omega)
      set s' := (htons (((write_header buf seq ack 24 flags window).set 20 2).set 21 4)
        22 v).take 24 with hs'
      have hlen' : s'.length = 24 := by
        rw [hs', List.length_take, length_opt_some]
        omega
      have hbyte : ∀ j, j < 20 → byte s' j
          = byte (write_header buf seq ack 24 flags window) j := by
        intro j hj
        rw [hs', byte_take (by omega)]
        exact byte_opt_lt20 _ v hj
      obtain ⟨ho20, ho21, ho22, ho23⟩ := byte_opt_20_23
        (write_header buf seq ack 24 flags window) v (by rw [length_write_header]; omega)
      have hs20 : byte s' 20 = 2 := by rw [hs', byte_take (by omega)]; exact ho20
      have hs22 : byte s' 22 = v % 65536 / 256 := by
        rw [hs', byte_take (by omega)]
        exact ho22
      have hs23 : byte s' 23 = v % 256 := by
        rw [hs', byte_take (by omega)]
        exact ho23
      obtain ⟨hbb, hseqw, hackw, hb12w, hnsw, hflagsw, hwinw, hurgw⟩ :=
        written_header_facts buf s' seq ack flags window 24 (by omega) hbyte
          hseq hack hf hw
      obtain ⟨hfb, hsp', hdp', hhl', hseq', hack', hflags', hwin', hpay', hbytes', hlen2⟩ :=
        finalize_layer s' sp dp src dst 24 (by omega) (by omega) hb12w (Or.inr rfl)
          (by omega)
      refine ⟨_, ?_, hfb, ?_, ?_, ?_, ?_, ?_, ?_, ?_, ?_⟩
      · unfold write_segment
        rw [hws]
      · rw [hsp']; omega
      · rw [hdp']; omega
      · rw [hseq', hseqw]
      · rw [hack', hackw]
      · rw [hflags', hflagsw]
      · rw [hwin', hwinw]
      · exact parse_mss_some _ v hv100 hv65536 hhl' (by omega)
          (by rw [hbytes' 20 (by omega)]; exact hs20)
          (by rw [hbytes' 22 (by omega)]; exact hs22)
          (by rw [hbytes' 23 (by omega)]; exact hs23)
      · rw [hpay']
        have h0 : (s'.drop 24).length = 0 := by rw [List.length_drop, hlen']
        rw [List.eq_nil_of_length_eq_zero h0]
        rfl
    · simp only [Option.getD_some] at hbuf
      obtain ⟨hqne, hqm⟩ := hp q rfl
      have hq0 : 0 < q.length := List.length_pos.mpr hqne
      have hpa : Option.map (fun q : List Nat => (q, q.length)) (some q)
          = some (q, q.length) := rfl
      rw [hpa]
      have hlen1 : len (htons (((write_header buf seq ack 24 flags window).set 20 2).set
          21 4) 22 v) = buf.length := by
        unfold len
        rw [length_opt_some]
        omega
      have hws := wis_some_payload buf q seq ack flags window v mr q.length
        (by omega) (by omega)
      have hr : min (min (len (htons (((write_header buf seq ack 24 flags window).set 20
          2).set 21 4) 22 v) - 24) (mr - 4)) (min q.length q.length) = q.length := by
        rw [hlen1]
        omega
      rw [hr, if_neg (by omega), List.take_length] at hws
      have hov : 24 + q.length ≤ (htons (((write_header buf seq ack 24 flags window).set
          20 2).set 21 4) 22 v).length := by
        rw [length_opt_some]
        omega
      set s' := (overwrite (htons (((write_header buf seq ack 24 flags window).set 20
        2).set 21 4) 22 v) 24 q).take (24 + q.length) with hs'
      have hlen' : s'.length = 24 + q.length := by
        rw [hs', List.length_take, length_overwrite hov, length_opt_some]
        omega
      obtain ⟨ho20, ho21, ho22, ho23⟩ := byte_opt_20_23
        (write_header buf seq ack 24 flags window) v (by rw [length_write_header]; omega)
      have hbyte : ∀ j, j < 20 → byte s' j
          = byte (write_header buf seq ack 24 flags window) j := by
        intro j hj
        rw [hs', byte_take (by omega),
          byte_overwrite_of_lt (by omega) (by rw [length_opt_some]; omega)]
        exact byte_opt_lt20 _ v hj
      have hs20 : byte s' 20 = 2 := by
        rw [hs', byte_take (by omega),
          byte_overwrite_of_lt (by omega) (by rw [length_opt_some]; omega)]
        exact ho20
      have hs22 : byte s' 22 = v % 65536 / 256 := by
        rw [hs', byte_take (by omega),
          byte_overwrite_of_lt (by omega) (by rw [length_opt_some]; omega)]
        exact ho22
      have hs23 : byte s' 23 = v % 256 := by
        rw [hs', byte_take (by omega),
          byte_overwrite_of_lt (by omega) (by rw [length_opt_some]; omega)]
        exact ho23
      have hdrop : s'.drop 24 = q := by
        rw [hs']
        exact drop_take_overwrite hov
      obtain ⟨hbb, hseqw, hackw, hb12w, hnsw, hflagsw, hwinw, hurgw⟩ :=
        written_header_facts buf s' seq ack flags window 24 (by omega) hbyte
          hseq hack hf hw
      obtain ⟨hfb, hsp', hdp', hhl', hseq', hack', hflags', hwin', hpay', hbytes', hlen2⟩ :=
        finalize_layer s' sp dp src dst 24 (by omega) (by omega) hb12w (Or.inr rfl)
          (by omega)
      refine ⟨_, ?_, hfb, ?_, ?_, ?_, ?_, ?_, ?_, ?_, ?_⟩
      · unfold write_segment
        rw [hws]
      · rw [hsp']; omega
      · rw [hdp']; omega
      · rw [hseq', hseqw]
      · rw [hack', hackw]
      · rw [hflags', hflagsw]
      · rw [hwin', hwinw]
      · exact parse_mss_some _ v hv100 hv65536 hhl' (by omega)
          (by rw [hbytes' 20 (by omega)]; exact hs20)
          (by rw [hbytes' 22 (by omega)]; exact hs22)
          (by rw [hbytes' 23 (by omega)]; exact hs23)
      · rw [hpay', hdrop]
        rfl

end Dumbo

namespace Dumbo

/-- C1 witness: a concrete valid tuple with an MSS option of 536 and a one-byte
payload round-trips through write_segment and from_bytes. -/
theorem c1_round_trip_witness :
    ((1234:Nat) < 65536 ∧ (80:Nat) < 65536 ∧ (5:Nat) < 4294967296
      ∧ (6:Nat) < 4294967296 ∧ (18:Nat) < 256 ∧ (1000:Nat) < 65536
      ∧ (100:Nat) ≤ 536 ∧ (536:Nat) < 65536 ∧ (4:Nat) ≤ 100) ∧
    (∃ t, write_segment (List.replicate 30 0) 1234 80 5 6 18 1000 (some 536) 100
        ((some [65]).map (fun q => (q, q.length)))
        (some (Ipv4Addr.mk 10 1 2 3, Ipv4Addr.mk 192 168 44 77)) = .ok t
      ∧ from_bytes t (some (Ipv4Addr.mk 10 1 2 3, Ipv4Addr.mk 192 168 44 77)) = .ok t
      ∧ source_port t = 1234 ∧ destination_port t = 80
      ∧ sequence_number t = 5 ∧ ack_number t = 6
      ∧ flags_after_ns t = 18 ∧ window_size t = 1000
      ∧ parse_mss_option_unchecked t (header_len t) = some (.ok (some 536))
      ∧ payload t = (some [65]).getD []) :=
  ⟨⟨by omega, by omega, by omega, by omega, by omega, by omega, by omega, by omega,
      by omega⟩,
    c1_round_trip (List.replicate 30 0) 1234 80 5 6 18 1000 100 (some 536) (some [65])
      (Ipv4Addr.mk 10 1 2 3) (Ipv4Addr.mk 192 168 44 77)
      (by omega) (by omega) (by omega) (by omega) (by omega) (by omega)
      (fun v hv => by cases hv; exact ⟨by omega, by omega, by omega⟩)
      (by simp) (by simp)
      (fun q hq => by cases hq; exact ⟨by simp, by simp⟩)⟩

end Dumbo
